import Mathlib

/-!
# Phaser effect (`src/effects/native/phasereffect.cpp`)

A shallow embedding of `PhaserEffect::processChannel` and of the state it mutates, followed
by the properties of the routine.

## Conventions

* Samples (`CSAMPLE`, `CSAMPLE_GAIN`, `double`) are idealised as elements of a linearly
  ordered field `α` with a floor function; rounding, overflow and the non-finite values of
  machine floats are not modelled.  A division by zero, which the routine performs only when
  the LFO period is `0` (sample rate `0`, or a tempo with beat length `0`) or when the buffer
  has fewer than two samples, has the value `0` here.
* The libm functions the routine calls (`tanh`, `sin`) and the constant `M_PI` are supplied
  through a `CMath` record, so every definition is executable once `α` and the record are
  (for instance over `ℚ`).  Properties that need analytic facts are stated for the record
  `⟨Real.tanh, Real.sin, Real.pi⟩` over `ℝ`.
* `unsigned int` values are natural numbers and `int` values are integers, without
  wrap-around.
* `pInput` is a list read with default `0`; the output is the list of the samples written to
  `pOutput`, in index order.
* `phasereffect.h` and `util/math.h` are not among the sources: the state record, `init`,
  `processSample`, `MAX_STAGES` and `roundToFraction` are modelled from the specification.
-/

set_option linter.unusedSectionVars false

namespace Phaser

/-- The libm interface used by `processChannel`: `tanh`, `sin` and the constant `M_PI`. -/
structure CMath (α : Type) where
  tanh : α → α
  sin : α → α
  M_PI : α

/-- Values of `EffectProcessor::EnableState`. -/
inductive EnableState where
  | DISABLED
  | ENABLED
  | DISABLING
  | ENABLING
  deriving DecidableEq, Repr

/-- The two fields of `GroupFeatureState` that `processChannel` reads. -/
structure GroupFeatureState (α : Type) where
  has_beat_length_sec : Bool
  beat_length_sec : α

/-- The current values of the seven parameters, as read through `value()` (a number) or
`toBool()` (the triplet toggle) at the start of a buffer. -/
structure Params (α : Type) where
  stages : α
  lfo_period : α
  depth : α
  feedback : α
  range : α
  triplet : Bool
  stereo : α

/-- Modelled from the spec: `PhaserGroupState` is declared in `phasereffect.h`, which is not
among the sources.  Section 3 of the spec lists its fields: four tap arrays of `K` entries
each, the two LFO phases and the last depth. -/
structure PhaserGroupState (α : Type) where
  oldInLeft : List α
  oldOutLeft : List α
  oldInRight : List α
  oldOutRight : List α
  leftPhase : α
  rightPhase : α
  oldDepth : α

/-- The coefficient refresh cadence, `const unsigned int updateCoef = 32`. -/
def updateCoef : Nat := 32

/-- The local constant `const int kChannels = 2`. -/
def kChannels : Nat := 2

/-- Modelled from the spec: `MAX_STAGES` (the `K` of the spec, "max supported stage count")
is defined in the missing header; the stage knob maps to 2–12 sections, so `K = 12`. -/
def MAX_STAGES : Nat := 12

section Model

variable {α : Type} [LinearOrderedField α] [FloorRing α]

/-- Conversion of a floating value to `int` (`int x = value`): truncation toward zero. -/
def toInt (x : α) : Int :=
  if 0 ≤ x then ⌊x⌋ else ⌈x⌉

/-- The libm `fmodf(x, y)`: `x - trunc(x / y) * y`, which has the sign of `x`. -/
def fmodf (x y : α) : α :=
  x - (toInt (x / y) : α) * y

/-- The libm `round`: nearest integer, halfway cases away from zero. -/
def stdRound (x : α) : Int :=
  if 0 ≤ x then ⌊x + 1 / 2⌋ else ⌈x - 1 / 2⌉

/-- Modelled from the spec: `roundToFraction` lives in `util/math.h`, which is not among the
sources.  The spec describes its use as "quantize `period` to the nearest 0.5-beat unit":
the value is rounded to the nearest multiple of `1 / denominator`. -/
def roundToFraction (value denominator : α) : α :=
  (stdRound (value * denominator) : α) / denominator

/-- Modelled from the spec: `PhaserGroupState::init` is defined in the missing header.  The
spec's `reset()` zeroes all arrays, the phases and `oldDepth`. -/
def PhaserGroupState.init : PhaserGroupState α where
  oldInLeft := List.replicate MAX_STAGES 0
  oldOutLeft := List.replicate MAX_STAGES 0
  oldInRight := List.replicate MAX_STAGES 0
  oldOutRight := List.replicate MAX_STAGES 0
  leftPhase := 0
  rightPhase := 0
  oldDepth := 0

/-- Modelled from the spec: the loop of `processSample` (missing header), started at section
`j` with `n` sections left.  Each section computes `y = -c*x + oldIn + c*oldOut`, stores
`oldIn = x`, `oldOut = y` and feeds `y` to the next section. -/
def processSampleLoop (mainCoef : α) : Nat → Nat → α → List α → List α → α × List α × List α
  | 0, _, input, oldIn, oldOut => (input, oldIn, oldOut)
  | n + 1, j, input, oldIn, oldOut =>
    processSampleLoop mainCoef n (j + 1)
      (-mainCoef * input + oldIn.getD j 0 + mainCoef * oldOut.getD j 0)
      (oldIn.set j input)
      (oldOut.set j (-mainCoef * input + oldIn.getD j 0 + mainCoef * oldOut.getD j 0))

/-- Modelled from the spec: `processSample(input, oldIn, oldOut, mainCoef, stages)` passes
the sample through `stages` all-pass sections in series and returns the last output together
with the updated tap arrays. -/
def processSample (input : α) (oldIn oldOut : List α) (mainCoef : α) (stages : Int) :
    α × List α × List α :=
  processSampleLoop mainCoef stages.toNat 0 input oldIn oldOut

/-- Lines 141–144: the target depth of the buffer, `0` while disabling. -/
def targetDepth (p : Params α) (enableState : EnableState) : α :=
  if enableState ≠ EnableState.DISABLING then p.depth else 0

/-- Lines 146–158: the LFO period in samples. -/
def lfoPeriod (p : Params α) (sampleRate : Nat) (groupFeatures : GroupFeatureState α) : α :=
  if groupFeatures.has_beat_length_sec then
    (if p.triplet then max (roundToFraction p.lfo_period 2) (1 / 4) / 3
      else max (roundToFraction p.lfo_period 2) (1 / 4))
      * groupFeatures.beat_length_sec * (sampleRate : α) * (kChannels : α)
  else
    max p.lfo_period (1 / 4) * (sampleRate : α) * (kChannels : α)

/-- Line 162: `int stages = 2 * m_pStagesParameter->value()`. -/
def stagesOf (p : Params α) : Int :=
  toInt (2 * p.stages)

/-- Line 174: `freqSkip = 1.0 / period * 2.0 * M_PI`. -/
def freqSkipOf (m : CMath α) (period : α) : α :=
  1 / period * 2 * m.M_PI

/-- Lines 177–178: `depthDelta = (depth - oldDepth) / CSAMPLE_GAIN(numSamples / 2)`. -/
def depthDeltaOf (depth oldDepth : α) (numSamples : Nat) : α :=
  (depth - oldDepth) / ((numSamples / 2 : Nat) : α)

/-- Lines 179 and 213: the depth used by the iteration with index `i`,
`depthStart + depthDelta * (i / kChannels)` with `depthStart = oldDepth + depthDelta`. -/
def frameDepth (depth oldDepth : α) (numSamples i : Nat) : α :=
  (oldDepth + depthDeltaOf depth oldDepth numSamples)
    + depthDeltaOf depth oldDepth numSamples * ((i / kChannels : Nat) : α)

/-- Lines 195–206 for one channel: the all-pass coefficient computed from that channel's
LFO phase. -/
def filterCoef (m : CMath α) (range phase : α) : α :=
  (1 - m.tanh (range * (1 / 2 + 1 / 2 * m.sin phase) / 2))
    / (1 + m.tanh (range * (1 / 2 + 1 / 2 * m.sin phase) / 2))

/-- What stays fixed during the loop of `processChannel`. -/
structure LoopEnv (α : Type) where
  pInput : List α
  feedback : α
  range : α
  stages : Int
  freqSkip : α
  depth : α
  oldDepth : α
  numSamples : Nat
  stereoCheck : Int

/-- What the loop of `processChannel` mutates, the output buffer apart. -/
structure LoopVars (α : Type) where
  pState : PhaserGroupState α
  left : α
  right : α
  filterCoefLeft : α
  filterCoefRight : α
  counter : Nat

/-- Lines 189–190: the two phases after the update of one iteration. -/
def nextLeftPhase (m : CMath α) (e : LoopEnv α) (s : PhaserGroupState α) : α :=
  fmodf (s.leftPhase + e.freqSkip) (2 * m.M_PI)

/-- Line 190. -/
def nextRightPhase (m : CMath α) (e : LoopEnv α) (s : PhaserGroupState α) : α :=
  fmodf (s.rightPhase + e.freqSkip + m.M_PI * (e.stereoCheck : α)) (2 * m.M_PI)

/-- Lines 194–208: the left coefficient used by the iteration. -/
def coefLeft (m : CMath α) (e : LoopEnv α) (v : LoopVars α) : α :=
  if v.counter % updateCoef = 0 then filterCoef m e.range (nextLeftPhase m e v.pState)
  else v.filterCoefLeft

/-- Lines 194–208: the right coefficient used by the iteration. -/
def coefRight (m : CMath α) (e : LoopEnv α) (v : LoopVars α) : α :=
  if v.counter % updateCoef = 0 then filterCoef m e.range (nextRightPhase m e v.pState)
  else v.filterCoefRight

/-- Lines 185 and 210: the left cascade, fed with the input sample plus the saturated
feedback. -/
def cascadeLeft (m : CMath α) (e : LoopEnv α) (i : Nat) (v : LoopVars α) :
    α × List α × List α :=
  processSample (e.pInput.getD i 0 + m.tanh (v.left * e.feedback))
    v.pState.oldInLeft v.pState.oldOutLeft (coefLeft m e v) e.stages

/-- Lines 186 and 211: the right cascade. -/
def cascadeRight (m : CMath α) (e : LoopEnv α) (i : Nat) (v : LoopVars α) :
    α × List α × List α :=
  processSample (e.pInput.getD (i + 1) 0 + m.tanh (v.right * e.feedback))
    v.pState.oldInRight v.pState.oldOutRight (coefRight m e v) e.stages

/-- Lines 185–211: the loop variables after the iteration with index `i`. -/
def stepVars (m : CMath α) (e : LoopEnv α) (i : Nat) (v : LoopVars α) : LoopVars α where
  pState :=
    { oldInLeft := (cascadeLeft m e i v).2.1
      oldOutLeft := (cascadeLeft m e i v).2.2
      oldInRight := (cascadeRight m e i v).2.1
      oldOutRight := (cascadeRight m e i v).2.2
      leftPhase := nextLeftPhase m e v.pState
      rightPhase := nextRightPhase m e v.pState
      oldDepth := v.pState.oldDepth }
  left := (cascadeLeft m e i v).1
  right := (cascadeRight m e i v).1
  filterCoefLeft := coefLeft m e v
  filterCoefRight := coefRight m e v
  counter := v.counter + 1

/-- Lines 213–217: the two samples written to `pOutput[i]` and `pOutput[i + 1]`. -/
def stepOutput (m : CMath α) (e : LoopEnv α) (i : Nat) (v : LoopVars α) : List α :=
  [ e.pInput.getD i 0 * (1 - 1 / 2 * frameDepth e.depth e.oldDepth e.numSamples i)
      + (cascadeLeft m e i v).1 * frameDepth e.depth e.oldDepth e.numSamples i * (1 / 2),
    e.pInput.getD (i + 1) 0 * (1 - 1 / 2 * frameDepth e.depth e.oldDepth e.numSamples i)
      + (cascadeRight m e i v).1 * frameDepth e.depth e.oldDepth e.numSamples i * (1 / 2) ]

/-- Lines 184–218: `n` iterations of the loop starting at index `i`; returns the loop
variables and the samples written, in index order. -/
def phaserLoop (m : CMath α) (e : LoopEnv α) : Nat → Nat → LoopVars α → LoopVars α × List α
  | 0, _, v => (v, [])
  | n + 1, i, v =>
    ((phaserLoop m e n (i + kChannels) (stepVars m e i v)).1,
      stepOutput m e i v ++ (phaserLoop m e n (i + kChannels) (stepVars m e i v)).2)

/-- Lines 137–139: the state the buffer is processed from. -/
def enterState (pState : PhaserGroupState α) (enableState : EnableState) : PhaserGroupState α :=
  if enableState = EnableState.ENABLING then PhaserGroupState.init else pState

/-- Lines 146–181: the values fixed before the loop. -/
def loopEnv (m : CMath α) (p : Params α) (pState : PhaserGroupState α) (pInput : List α)
    (numSamples sampleRate : Nat) (enableState : EnableState)
    (groupFeatures : GroupFeatureState α) : LoopEnv α where
  pInput := pInput
  feedback := p.feedback
  range := p.range
  stages := stagesOf p
  freqSkip := freqSkipOf m (lfoPeriod p sampleRate groupFeatures)
  depth := targetDepth p enableState
  oldDepth := (enterState pState enableState).oldDepth
  numSamples := numSamples
  stereoCheck := toInt p.stereo

/-- Lines 170–173 and 182: the loop variables before the first iteration. -/
def loopStart (pState : PhaserGroupState α) : LoopVars α where
  pState := pState
  left := 0
  right := 0
  filterCoefLeft := 0
  filterCoefRight := 0
  counter := 0

/-- `PhaserEffect::processChannel`: the state after the buffer and the samples written to
`pOutput`.  The loop `for (i = 0; i < numSamples; i += kChannels)` runs
`(numSamples + 1) / 2` times. -/
def processChannel (m : CMath α) (p : Params α) (pState : PhaserGroupState α)
    (pInput : List α) (numSamples sampleRate : Nat) (enableState : EnableState)
    (groupFeatures : GroupFeatureState α) : PhaserGroupState α × List α :=
  ({ (phaserLoop m (loopEnv m p pState pInput numSamples sampleRate enableState groupFeatures)
        ((numSamples + 1) / 2) 0 (loopStart (enterState pState enableState))).1.pState with
      oldDepth := targetDepth p enableState },
    (phaserLoop m (loopEnv m p pState pInput numSamples sampleRate enableState groupFeatures)
        ((numSamples + 1) / 2) 0 (loopStart (enterState pState enableState))).2)

/-! ## Runs and the predicates the properties are stated with -/

/-- The declared ranges of the numeric parameters (`setMinimum` / `setMaximum` in
`getManifest`). -/
structure Params.InRange (p : Params α) : Prop where
  period_min : 0 ≤ p.lfo_period
  period_max : p.lfo_period ≤ 4
  range_min : 1 / 20 ≤ p.range
  range_max : p.range ≤ 19 / 20
  stages_min : 1 ≤ p.stages
  stages_max : p.stages ≤ 6
  feedback_min : -(19 / 20) ≤ p.feedback
  feedback_max : p.feedback ≤ 19 / 20
  depth_min : 1 / 2 ≤ p.depth
  depth_max : p.depth ≤ 1
  stereo_min : 0 ≤ p.stereo
  stereo_max : p.stereo ≤ 1

/-- The arguments of one call of `processChannel` other than the state. -/
structure BufferCall (α : Type) where
  params : Params α
  pInput : List α
  numSamples : Nat
  sampleRate : Nat
  enableState : EnableState
  groupFeatures : GroupFeatureState α

/-- One call of `processChannel` with the arguments of `c`. -/
def processCall (m : CMath α) (pState : PhaserGroupState α) (c : BufferCall α) :
    PhaserGroupState α × List α :=
  processChannel m c.params pState c.pInput c.numSamples c.sampleRate c.enableState
    c.groupFeatures

/-- A run: the host calls `processChannel` once per buffer, each call starting from the
state the previous one left.  Returns the final state and the output buffers in order. -/
def runBuffers (m : CMath α) : PhaserGroupState α → List (BufferCall α) →
    PhaserGroupState α × List (List α)
  | s, [] => (s, [])
  | s, c :: cs =>
    ((runBuffers m (processCall m s c).1 cs).1,
      (processCall m s c).2 :: (runBuffers m (processCall m s c).1 cs).2)

/-- Both LFO phases lie in `[0, 2π)`. -/
def PhaseWrapped (m : CMath α) (s : PhaserGroupState α) : Prop :=
  (0 ≤ s.leftPhase ∧ s.leftPhase < 2 * m.M_PI)
    ∧ (0 ≤ s.rightPhase ∧ s.rightPhase < 2 * m.M_PI)

/-- The preconditions of a call that the phase invariant needs: a positive sample rate,
parameters in their declared ranges, and a positive beat length when a tempo is present. -/
structure BufferCall.Valid (c : BufferCall α) : Prop where
  rate_pos : 0 < c.sampleRate
  params_ok : c.params.InRange
  beat_pos : c.groupFeatures.has_beat_length_sec = true → 0 < c.groupFeatures.beat_length_sec

/-- A sample call: two silent frames at 44.1 kHz with the stereo toggle on, an LFO period of
one second and no tempo. -/
def stereoCall : BufferCall α where
  params :=
    { stages := 7 / 2, lfo_period := 1, depth := 1 / 2, feedback := 0, range := 1 / 20,
      triplet := false, stereo := 1 }
  pInput := [0, 0, 0, 0]
  numSamples := 4
  sampleRate := 44100
  enableState := EnableState.ENABLED
  groupFeatures := ⟨false, 0⟩

/-- All entries of a tap array are zero. -/
def TapsZero (l : List α) : Prop :=
  ∀ k, l.getD k 0 = 0

/-- A sample input of 64 frames: silence except for a `1` on the left channel of frame 31. -/
def pulseInput : List α :=
  List.replicate 62 0 ++ 1 :: List.replicate 65 0

/-- Sample parameters with feedback `1/2`, depth `1/2` and two all-pass sections. -/
def feedbackParams : Params α :=
  { stages := 1, lfo_period := 1, depth := 1 / 2, feedback := 1 / 2, range := 1 / 2,
    triplet := false, stereo := 0 }

/-- The reset state with `oldDepth` already at `1/2`. -/
def halfDepthState : PhaserGroupState α :=
  { (PhaserGroupState.init : PhaserGroupState α) with oldDepth := 1 / 2 }

/-- The bound kept on one channel's taps when every cascade input is bounded by `X`: the two
arrays have the same length, the stored input of section `j` is bounded by `X * 3^j`, and
the sum of its stored output and stored input by `2 * X * 3^j`. -/
def TapsBounded (X : α) (oldIn oldOut : List α) : Prop :=
  oldIn.length = oldOut.length
    ∧ ∀ j, |oldIn.getD j 0| ≤ X * 3 ^ j ∧ |oldOut.getD j 0 + oldIn.getD j 0| ≤ 2 * X * 3 ^ j

/-- The state invariant behind the boundedness property: taps bounded for cascade inputs in
`[-2, 2]` and `oldDepth` in `[0, 1]`. -/
def StateBounded (s : PhaserGroupState α) : Prop :=
  TapsBounded 2 s.oldInLeft s.oldOutLeft ∧ TapsBounded 2 s.oldInRight s.oldOutRight
    ∧ 0 ≤ s.oldDepth ∧ s.oldDepth ≤ 1

/-- The loop invariant behind the boundedness property: taps bounded for cascade inputs in
`[-2, 2]` and both coefficients in `[0, 1]`. -/
def LoopBounded (v : LoopVars α) : Prop :=
  TapsBounded 2 v.pState.oldInLeft v.pState.oldOutLeft
    ∧ TapsBounded 2 v.pState.oldInRight v.pState.oldOutRight
    ∧ (0 ≤ v.filterCoefLeft ∧ v.filterCoefLeft ≤ 1)
    ∧ (0 ≤ v.filterCoefRight ∧ v.filterCoefRight ≤ 1)

/-! ## Basic facts -/

theorem toInt_of_nonneg {x : α} (h : 0 ≤ x) : toInt x = ⌊x⌋ := by
  simp [toInt, h]

theorem toInt_nonneg {x : α} (h : 0 ≤ x) : 0 ≤ toInt x := by
  rw [toInt_of_nonneg h]; exact Int.floor_nonneg.mpr h

theorem enterState_enabling (s : PhaserGroupState α) :
    enterState s EnableState.ENABLING = PhaserGroupState.init := by
  simp [enterState]

theorem enterState_of_ne (s : PhaserGroupState α) {en : EnableState}
    (h : en ≠ EnableState.ENABLING) : enterState s en = s := by
  simp [enterState, h]

theorem frameDepth_closed (t d0 : α) (N k : Nat) (hN : 1 ≤ N) :
    frameDepth t d0 (2 * N) (2 * k) = d0 + ((k : α) + 1) * (t - d0) / (N : α) := by
  have hN0 : (N : α) ≠ 0 := by
    have : (0 : α) < (N : α) := by exact_mod_cast hN
    exact ne_of_gt this
  simp only [frameDepth, depthDeltaOf, kChannels]
  rw [Nat.mul_div_cancel_left N (by norm_num), Nat.mul_div_cancel_left k (by norm_num)]
  field_simp
  ring

theorem frameDepth_zero (numSamples i : Nat) : frameDepth (0 : α) 0 numSamples i = 0 := by
  simp [frameDepth, depthDeltaOf]

theorem drop_take_two_step (l : List α) (i n : Nat) (h : i + 2 * (n + 1) ≤ l.length) :
    (l.drop i).take (2 * (n + 1)) =
      [l.getD i 0, l.getD (i + 1) 0] ++ (l.drop (i + 2)).take (2 * n) := by
  have h0 : i < l.length := by omega
  have h1 : i + 1 < l.length := by omega
  rw [List.drop_eq_getElem_cons h0, List.drop_eq_getElem_cons h1]
  have e : 2 * (n + 1) = (2 * n + 1) + 1 := by ring
  rw [e, List.take_succ_cons, List.take_succ_cons]
  simp [List.getD_eq_getElem?_getD, List.getElem?_eq_getElem h0, List.getElem?_eq_getElem h1]

theorem phaserLoop_dry (m : CMath α) (e : LoopEnv α) (hd : e.depth = 0) (ho : e.oldDepth = 0) :
    ∀ (n i : Nat) (v : LoopVars α), i + 2 * n ≤ e.pInput.length →
      (phaserLoop m e n i v).2 = (e.pInput.drop i).take (2 * n) := by
  intro n
  induction n with
  | zero => intro i v _; simp [phaserLoop]
  | succ n ih =>
    intro i v h
    rw [phaserLoop, drop_take_two_step _ _ _ h]
    simp only [kChannels]
    rw [ih (i + 2) (stepVars m e i v) (by omega)]
    simp [stepOutput, hd, ho, frameDepth_zero]

theorem stdRound_sub_abs_le (y : α) : |(stdRound y : α) - y| ≤ 1 / 2 := by
  unfold stdRound
  split_ifs with h
  · have h1 := Int.floor_le (y + 1 / 2)
    have h2 := Int.lt_floor_add_one (y + 1 / 2)
    rw [abs_le]; constructor <;> linarith
  · have h1 := Int.le_ceil (y - 1 / 2)
    have h2 := Int.ceil_lt_add_one (y - 1 / 2)
    rw [abs_le]; constructor <;> linarith

theorem roundToFraction_two (x : α) :
    roundToFraction x 2 = (stdRound (2 * x) : α) / 2 := by
  simp [roundToFraction, mul_comm]

theorem roundToFraction_two_near (x : α) : |roundToFraction x 2 - x| ≤ 1 / 4 := by
  rw [roundToFraction_two]
  have h := stdRound_sub_abs_le (2 * x)
  rw [abs_le] at h ⊢
  constructor <;> linarith [h.1, h.2]

theorem stdRound_two : stdRound (2 : α) = 2 := by
  have h : (0 : α) ≤ 2 := by norm_num
  simp only [stdRound, h, if_true]
  rw [Int.floor_eq_iff]
  constructor <;> norm_num

/-! ## `fmodf` on non-negative arguments -/

theorem fmodf_of_nonneg {x T : α} (hx : 0 ≤ x) (hT : 0 < T) :
    fmodf x T = x - (⌊x / T⌋ : α) * T := by
  rw [fmodf, toInt_of_nonneg (div_nonneg hx hT.le)]

theorem fmodf_nonneg {x T : α} (hx : 0 ≤ x) (hT : 0 < T) : 0 ≤ fmodf x T := by
  rw [fmodf_of_nonneg hx hT]
  have h := Int.floor_le (x / T)
  have h2 : (⌊x / T⌋ : α) * T ≤ x := by
    calc (⌊x / T⌋ : α) * T ≤ x / T * T := mul_le_mul_of_nonneg_right h hT.le
      _ = x := div_mul_cancel₀ x hT.ne.symm
  linarith

theorem fmodf_lt {x T : α} (hx : 0 ≤ x) (hT : 0 < T) : fmodf x T < T := by
  rw [fmodf_of_nonneg hx hT]
  have h := Int.lt_floor_add_one (x / T)
  have h2 : x < ((⌊x / T⌋ : α) + 1) * T := by
    calc x = x / T * T := (div_mul_cancel₀ x hT.ne.symm).symm
      _ < ((⌊x / T⌋ : α) + 1) * T := mul_lt_mul_of_pos_right h hT
  linarith

theorem fmodf_of_lt {x T : α} (hx : 0 ≤ x) (hxT : x < T) : fmodf x T = x := by
  have hT : 0 < T := lt_of_le_of_lt hx hxT
  rw [fmodf_of_nonneg hx hT]
  have : ⌊x / T⌋ = 0 := by
    rw [Int.floor_eq_iff]
    constructor
    · simpa using div_nonneg hx hT.le
    · simpa using (div_lt_one hT).mpr hxT
  simp [this]

theorem fmodf_add_int_mul {x T : α} (hx : 0 ≤ x) (hT : 0 < T) (k : Nat) :
    fmodf (x + (k : α) * T) T = fmodf x T := by
  have hk : (0 : α) ≤ (k : α) * T := mul_nonneg (Nat.cast_nonneg k) hT.le
  rw [fmodf_of_nonneg (add_nonneg hx hk) hT, fmodf_of_nonneg hx hT]
  have : (x + (k : α) * T) / T = x / T + ((k : Int) : α) := by
    field_simp
  rw [this, Int.floor_add_int]
  push_cast
  ring

theorem fmodf_fmodf_add {a b T : α} (ha : 0 ≤ a) (hb : 0 ≤ b) (hT : 0 < T) :
    fmodf (fmodf a T + b) T = fmodf (a + b) T := by
  have hk : 0 ≤ ⌊a / T⌋ := Int.floor_nonneg.mpr (div_nonneg ha hT.le)
  obtain ⟨k, hk'⟩ := Int.eq_ofNat_of_zero_le hk
  have hfa := fmodf_nonneg ha hT
  have e : a + b = (fmodf a T + b) + (k : α) * T := by
    rw [fmodf_of_nonneg ha hT, hk']
    push_cast
    ring
  rw [e, fmodf_add_int_mul (add_nonneg hfa hb) hT]

/-! ## Phases stay wrapped -/

theorem lfoPeriod_nonneg (p : Params α) (sampleRate : Nat) (g : GroupFeatureState α)
    (hb : g.has_beat_length_sec = true → 0 < g.beat_length_sec) :
    0 ≤ lfoPeriod p sampleRate g := by
  have hq : (0 : α) ≤ max (roundToFraction p.lfo_period 2) (1 / 4) :=
    le_trans (by norm_num) (le_max_right _ _)
  have hm : (0 : α) ≤ max p.lfo_period (1 / 4) := le_trans (by norm_num) (le_max_right _ _)
  have hs : (0 : α) ≤ (sampleRate : α) := Nat.cast_nonneg _
  have hk : (0 : α) ≤ (kChannels : α) := Nat.cast_nonneg _
  unfold lfoPeriod
  split_ifs with h1 h2
  · have := (hb h1).le
    positivity
  · have := (hb h1).le
    positivity
  · positivity

theorem freqSkip_nonneg (m : CMath α) (hpi : 0 < m.M_PI) (p : Params α) (sampleRate : Nat)
    (g : GroupFeatureState α) (hb : g.has_beat_length_sec = true → 0 < g.beat_length_sec) :
    0 ≤ freqSkipOf m (lfoPeriod p sampleRate g) := by
  have := lfoPeriod_nonneg p sampleRate g hb
  have := hpi.le
  unfold freqSkipOf
  positivity

theorem stepVars_phaseWrapped (m : CMath α) (hpi : 0 < m.M_PI) (e : LoopEnv α)
    (hf : 0 ≤ e.freqSkip) (hs : 0 ≤ e.stereoCheck) (i : Nat) (v : LoopVars α)
    (hv : PhaseWrapped m v.pState) : PhaseWrapped m (stepVars m e i v).pState := by
  have hT : 0 < 2 * m.M_PI := by linarith
  have hsc : (0 : α) ≤ (e.stereoCheck : α) := by exact_mod_cast hs
  have hl : 0 ≤ v.pState.leftPhase + e.freqSkip := add_nonneg hv.1.1 hf
  have hr : 0 ≤ v.pState.rightPhase + e.freqSkip + m.M_PI * (e.stereoCheck : α) :=
    add_nonneg (add_nonneg hv.2.1 hf) (mul_nonneg hpi.le hsc)
  exact ⟨⟨fmodf_nonneg hl hT, fmodf_lt hl hT⟩, ⟨fmodf_nonneg hr hT, fmodf_lt hr hT⟩⟩

theorem phaserLoop_phaseWrapped (m : CMath α) (hpi : 0 < m.M_PI) (e : LoopEnv α)
    (hf : 0 ≤ e.freqSkip) (hs : 0 ≤ e.stereoCheck) :
    ∀ (n i : Nat) (v : LoopVars α), PhaseWrapped m v.pState →
      PhaseWrapped m (phaserLoop m e n i v).1.pState := by
  intro n
  induction n with
  | zero => intro i v hv; exact hv
  | succ n ih =>
    intro i v hv
    exact ih _ _ (stepVars_phaseWrapped m hpi e hf hs i v hv)

theorem init_phaseWrapped (m : CMath α) (hpi : 0 < m.M_PI) :
    PhaseWrapped m (PhaserGroupState.init : PhaserGroupState α) := by
  have : 0 < 2 * m.M_PI := by linarith
  exact ⟨⟨le_refl _, this⟩, ⟨le_refl _, this⟩⟩

theorem processChannel_phaseWrapped (m : CMath α) (hpi : 0 < m.M_PI) (p : Params α)
    (pState : PhaserGroupState α) (pInput : List α) (numSamples sampleRate : Nat)
    (enableState : EnableState) (g : GroupFeatureState α)
    (hst : PhaseWrapped m pState) (hstereo : 0 ≤ p.stereo)
    (hb : g.has_beat_length_sec = true → 0 < g.beat_length_sec) :
    PhaseWrapped m (processChannel m p pState pInput numSamples sampleRate enableState g).1 := by
  have henter : PhaseWrapped m (enterState pState enableState) := by
    unfold enterState
    split_ifs
    · exact init_phaseWrapped m hpi
    · exact hst
  exact phaserLoop_phaseWrapped m hpi _ (freqSkip_nonneg m hpi p sampleRate g hb)
    (toInt_nonneg hstereo) _ 0 _ henter

theorem runBuffers_phaseWrapped (m : CMath α) (hpi : 0 < m.M_PI) :
    ∀ (calls : List (BufferCall α)) (s : PhaserGroupState α), PhaseWrapped m s →
      (∀ c ∈ calls, c.Valid) → PhaseWrapped m (runBuffers m s calls).1 := by
  intro calls
  induction calls with
  | nil => intro s hs _; exact hs
  | cons c cs ih =>
    intro s hs hv
    have hc : c.Valid := hv c (List.mem_cons_self _ _)
    exact ih _ (processChannel_phaseWrapped m hpi _ _ _ _ _ _ _ hs hc.params_ok.stereo_min
      hc.beat_pos) (fun c' hc' => hv c' (List.mem_cons_of_mem _ hc'))

theorem phaserLoop_succ_fst (m : CMath α) (e : LoopEnv α) (n i : Nat) (v : LoopVars α) :
    (phaserLoop m e (n + 1) i v).1 = (phaserLoop m e n (i + kChannels) (stepVars m e i v)).1 :=
  rfl

theorem phaserLoop_zero_fst (m : CMath α) (e : LoopEnv α) (i : Nat) (v : LoopVars α) :
    (phaserLoop m e 0 i v).1 = v :=
  rfl

/-- With the stereo toggle on, two iterations from equal phases give equal phases again:
the right phase has gained `2π` in total, which the wrap removes. -/
theorem two_steps_phases_equal (m : CMath α) (hpi : 0 < m.M_PI) (e : LoopEnv α)
    (hf : 0 ≤ e.freqSkip) (hs : e.stereoCheck = 1) (i j : Nat) (v : LoopVars α)
    (h0 : 0 ≤ v.pState.leftPhase) (heq : v.pState.rightPhase = v.pState.leftPhase) :
    (stepVars m e j (stepVars m e i v)).pState.rightPhase
      = (stepVars m e j (stepVars m e i v)).pState.leftPhase := by
  have hT : 0 < 2 * m.M_PI := by linarith
  simp only [stepVars, nextLeftPhase, nextRightPhase, hs, heq, Int.cast_one, mul_one]
  rw [fmodf_fmodf_add (add_nonneg h0 hf) hf hT]
  have h1 : 0 ≤ v.pState.leftPhase + e.freqSkip + m.M_PI :=
    add_nonneg (add_nonneg h0 hf) hpi.le
  have h2 : fmodf (v.pState.leftPhase + e.freqSkip + m.M_PI) (2 * m.M_PI) + e.freqSkip + m.M_PI
      = fmodf (v.pState.leftPhase + e.freqSkip + m.M_PI) (2 * m.M_PI) + (e.freqSkip + m.M_PI) := by
    ring
  rw [h2, fmodf_fmodf_add h1 (add_nonneg hf hpi.le) hT]
  have h3 : v.pState.leftPhase + e.freqSkip + m.M_PI + (e.freqSkip + m.M_PI)
      = (v.pState.leftPhase + e.freqSkip + e.freqSkip) + ((1 : Nat) : α) * (2 * m.M_PI) := by
    push_cast
    ring
  rw [h3, fmodf_add_int_mul (add_nonneg (add_nonneg h0 hf) hf) hT]

/-! ## The coefficient refresh at the first iteration -/

theorem stepVars_refresh (m : CMath α) (e : LoopEnv α) (i : Nat) (v : LoopVars α)
    (cL cR : α) (h : v.counter % updateCoef = 0) :
    stepVars m e i { v with filterCoefLeft := cL, filterCoefRight := cR } = stepVars m e i v := by
  simp [stepVars, cascadeLeft, cascadeRight, coefLeft, coefRight, h]

theorem stepOutput_refresh (m : CMath α) (e : LoopEnv α) (i : Nat) (v : LoopVars α)
    (cL cR : α) (h : v.counter % updateCoef = 0) :
    stepOutput m e i { v with filterCoefLeft := cL, filterCoefRight := cR }
      = stepOutput m e i v := by
  simp [stepOutput, cascadeLeft, cascadeRight, coefLeft, coefRight, h]

theorem phaserLoop_initial_coef (m : CMath α) (e : LoopEnv α) (n i : Nat) (v : LoopVars α)
    (cL cR : α) (h : v.counter % updateCoef = 0) :
    (phaserLoop m e n i { v with filterCoefLeft := cL, filterCoefRight := cR }).1.pState
        = (phaserLoop m e n i v).1.pState
      ∧ (phaserLoop m e n i { v with filterCoefLeft := cL, filterCoefRight := cR }).2
        = (phaserLoop m e n i v).2 := by
  cases n with
  | zero => exact ⟨rfl, rfl⟩
  | succ n =>
    simp only [phaserLoop]
    rw [stepVars_refresh m e i v cL cR h, stepOutput_refresh m e i v cL cR h]
    exact ⟨rfl, rfl⟩

/-! ## Splitting a loop and comparing two loops -/

theorem phaserLoop_append (m : CMath α) (e : LoopEnv α) (a b : Nat) :
    ∀ (i : Nat) (v : LoopVars α),
      (phaserLoop m e (a + b) i v).1
          = (phaserLoop m e b (i + kChannels * a) (phaserLoop m e a i v).1).1
        ∧ (phaserLoop m e (a + b) i v).2
          = (phaserLoop m e a i v).2
            ++ (phaserLoop m e b (i + kChannels * a) (phaserLoop m e a i v).1).2 := by
  induction a with
  | zero => intro i v; simp [phaserLoop]
  | succ a ih =>
    intro i v
    have e1 : a + 1 + b = (a + b) + 1 := by omega
    have e2 : i + kChannels + kChannels * a = i + kChannels * (a + 1) := by ring
    rw [e1]
    simp only [phaserLoop]
    rw [(ih (i + kChannels) (stepVars m e i v)).1, (ih (i + kChannels) (stepVars m e i v)).2,
      e2, List.append_assoc]
    exact ⟨rfl, rfl⟩

theorem phaserLoop_counter (m : CMath α) (e : LoopEnv α) :
    ∀ (n i : Nat) (v : LoopVars α), (phaserLoop m e n i v).1.counter = v.counter + n := by
  intro n
  induction n with
  | zero => intro i v; rfl
  | succ n ih =>
    intro i v
    rw [phaserLoop_succ_fst, ih]
    simp only [stepVars]
    omega

theorem phaserLoop_oldDepth (m : CMath α) (e : LoopEnv α) :
    ∀ (n i : Nat) (v : LoopVars α),
      (phaserLoop m e n i v).1.pState.oldDepth = v.pState.oldDepth := by
  intro n
  induction n with
  | zero => intro i v; rfl
  | succ n ih =>
    intro i v
    rw [phaserLoop_succ_fst, ih]
    rfl

/-- One iteration run in two settings that agree on what the iteration reads gives the same
state, carried samples, coefficients and output. -/
theorem step_sim (m : CMath α) (e e' : LoopEnv α) (i i' : Nat) (v v' : LoopVars α)
    (hfb : e.feedback = e'.feedback) (hrange : e.range = e'.range)
    (hstages : e.stages = e'.stages) (hfs : e.freqSkip = e'.freqSkip)
    (hsc : e.stereoCheck = e'.stereoCheck)
    (hin0 : e.pInput.getD i 0 = e'.pInput.getD i' 0)
    (hin1 : e.pInput.getD (i + 1) 0 = e'.pInput.getD (i' + 1) 0)
    (hd : frameDepth e.depth e.oldDepth e.numSamples i
      = frameDepth e'.depth e'.oldDepth e'.numSamples i')
    (hst : v.pState = v'.pState)
    (hc : v.counter % updateCoef = v'.counter % updateCoef)
    (hcoef : v.counter % updateCoef = 0
      ∨ (v.filterCoefLeft = v'.filterCoefLeft ∧ v.filterCoefRight = v'.filterCoefRight))
    (hl : v.left * e.feedback = v'.left * e.feedback)
    (hr : v.right * e.feedback = v'.right * e.feedback) :
    (stepVars m e i v).pState = (stepVars m e' i' v').pState
      ∧ (stepVars m e i v).left = (stepVars m e' i' v').left
      ∧ (stepVars m e i v).right = (stepVars m e' i' v').right
      ∧ (stepVars m e i v).filterCoefLeft = (stepVars m e' i' v').filterCoefLeft
      ∧ (stepVars m e i v).filterCoefRight = (stepVars m e' i' v').filterCoefRight
      ∧ stepOutput m e i v = stepOutput m e' i' v' := by
  have hcl : coefLeft m e v = coefLeft m e' v' := by
    unfold coefLeft nextLeftPhase
    rw [← hc, ← hrange, ← hfs, ← hst]
    rcases hcoef with h0 | h1
    · simp [h0]
    · rw [h1.1]
  have hcr : coefRight m e v = coefRight m e' v' := by
    unfold coefRight nextRightPhase
    rw [← hc, ← hrange, ← hfs, ← hst, ← hsc]
    rcases hcoef with h0 | h1
    · simp [h0]
    · rw [h1.2]
  have hL : cascadeLeft m e i v = cascadeLeft m e' i' v' := by
    unfold cascadeLeft
    rw [hcl, hin0, hl, ← hfb, ← hst, ← hstages]
  have hR : cascadeRight m e i v = cascadeRight m e' i' v' := by
    unfold cascadeRight
    rw [hcr, hin1, hr, ← hfb, ← hst, ← hstages]
  refine ⟨?_, ?_, ?_, ?_, ?_, ?_⟩
  · simp only [stepVars, hL, hR, nextLeftPhase, nextRightPhase, hfs, hsc, hst]
  · simp only [stepVars, hL]
  · simp only [stepVars, hR]
  · simp only [stepVars, hcl]
  · simp only [stepVars, hcr]
  · simp only [stepOutput, hL, hR, hin0, hin1, hd]

theorem phaserLoop_sim (m : CMath α) (e e' : LoopEnv α)
    (hfb : e.feedback = e'.feedback) (hrange : e.range = e'.range)
    (hstages : e.stages = e'.stages) (hfs : e.freqSkip = e'.freqSkip)
    (hsc : e.stereoCheck = e'.stereoCheck) :
    ∀ (n i i' : Nat) (v v' : LoopVars α),
      (∀ k, k < 2 * n → e.pInput.getD (i + k) 0 = e'.pInput.getD (i' + k) 0) →
      (∀ k, k < n → frameDepth e.depth e.oldDepth e.numSamples (i + 2 * k)
        = frameDepth e'.depth e'.oldDepth e'.numSamples (i' + 2 * k)) →
      v.pState = v'.pState →
      v.counter % updateCoef = v'.counter % updateCoef →
      (v.counter % updateCoef = 0
        ∨ (v.filterCoefLeft = v'.filterCoefLeft ∧ v.filterCoefRight = v'.filterCoefRight)) →
      v.left * e.feedback = v'.left * e.feedback →
      v.right * e.feedback = v'.right * e.feedback →
      (phaserLoop m e n i v).1.pState = (phaserLoop m e' n i' v').1.pState
        ∧ (phaserLoop m e n i v).2 = (phaserLoop m e' n i' v').2 := by
  intro n
  induction n with
  | zero =>
    intro i i' v v' _ _ hst _ _ _ _
    exact ⟨hst, rfl⟩
  | succ n ih =>
    intro i i' v v' hin hd hst hc hcoef hl hr
    have h := step_sim m e e' i i' v v' hfb hrange hstages hfs hsc
      (by simpa using hin 0 (by omega)) (hin 1 (by omega))
      (by simpa using hd 0 (by omega)) hst hc hcoef hl hr
    have hc' : (stepVars m e i v).counter % updateCoef
        = (stepVars m e' i' v').counter % updateCoef := by
      have hc0 := hc
      simp only [stepVars, updateCoef] at hc0 ⊢
      omega
    have ih' := ih (i + kChannels) (i' + kChannels) (stepVars m e i v) (stepVars m e' i' v')
      (fun k hk => by
        have := hin (k + 2) (by omega)
        simpa [kChannels, Nat.add_assoc, Nat.add_comm 2 k] using this)
      (fun k hk => by
        have := hd (k + 1) (by omega)
        have e1 : i + 2 * (k + 1) = i + kChannels + 2 * k := by simp [kChannels]; ring
        have e2 : i' + 2 * (k + 1) = i' + kChannels + 2 * k := by simp [kChannels]; ring
        rw [e1, e2] at this
        exact this)
      h.1 hc' (Or.inr ⟨h.2.2.2.1, h.2.2.2.2.1⟩) (by rw [h.2.1]) (by rw [h.2.2.1])
    simp only [phaserLoop]
    rw [h.2.2.2.2.2]
    exact ⟨ih'.1, by rw [ih'.2]⟩

theorem frameDepth_const (d : α) (numSamples i : Nat) : frameDepth d d numSamples i = d := by
  simp [frameDepth, depthDeltaOf]

theorem loopEnv_frameDepth_const (m : CMath α) (p : Params α) (pState : PhaserGroupState α)
    (pInput : List α) (numSamples sampleRate i : Nat) (g : GroupFeatureState α)
    (h : targetDepth p EnableState.ENABLED = pState.oldDepth) :
    frameDepth (loopEnv m p pState pInput numSamples sampleRate EnableState.ENABLED g).depth
        (loopEnv m p pState pInput numSamples sampleRate EnableState.ENABLED g).oldDepth
        (loopEnv m p pState pInput numSamples sampleRate EnableState.ENABLED g).numSamples i
      = pState.oldDepth := by
  simp only [loopEnv]
  rw [enterState_of_ne _ (by decide), h, frameDepth_const]

theorem getD_take_of_lt (l : List α) (n k : Nat) (h : k < n) :
    (l.take n).getD k 0 = l.getD k 0 := by
  simp [List.getD_eq_getElem?_getD, List.getElem?_take_of_lt h]

theorem getD_drop (l : List α) (n k : Nat) : (l.drop n).getD k 0 = l.getD (n + k) 0 := by
  simp [List.getD_eq_getElem?_getD, List.getElem?_drop]

/-- The first half of a buffer processed on its own, at a constant depth: same output and
same state as the first half of the iterations of the whole buffer. -/
theorem processChannel_first_half (m : CMath α) (p : Params α) (pState : PhaserGroupState α)
    (pInput : List α) (N sampleRate : Nat) (g : GroupFeatureState α)
    (hdepth : targetDepth p EnableState.ENABLED = pState.oldDepth) :
    (processChannel m p pState (pInput.take (2 * N)) (2 * N) sampleRate
        EnableState.ENABLED g).2
        = (phaserLoop m (loopEnv m p pState pInput (4 * N) sampleRate EnableState.ENABLED g)
            N 0 (loopStart pState)).2
      ∧ (processChannel m p pState (pInput.take (2 * N)) (2 * N) sampleRate
          EnableState.ENABLED g).1
        = (phaserLoop m (loopEnv m p pState pInput (4 * N) sampleRate EnableState.ENABLED g)
            N 0 (loopStart pState)).1.pState := by
  have hen : ∀ s : PhaserGroupState α, enterState s EnableState.ENABLED = s :=
    fun s => enterState_of_ne s (by decide)
  have hn2 : (2 * N + 1) / 2 = N := by omega
  have hA := phaserLoop_sim m
    (loopEnv m p pState pInput (4 * N) sampleRate EnableState.ENABLED g)
    (loopEnv m p pState (pInput.take (2 * N)) (2 * N) sampleRate EnableState.ENABLED g)
    rfl rfl rfl rfl rfl N 0 0 (loopStart pState) (loopStart pState)
    (fun k hk => by
      simp only [loopEnv, Nat.zero_add]
      exact (getD_take_of_lt pInput (2 * N) k hk).symm)
    (fun k _ => by
      simp only [loopEnv, hen, hdepth, frameDepth_const])
    rfl rfl (Or.inl rfl) rfl rfl
  constructor
  · simp only [processChannel, hn2, hen]
    rw [← hA.2]
  · simp only [processChannel, hn2, hen]
    rw [← hA.1]
    have ho := phaserLoop_oldDepth m
      (loopEnv m p pState pInput (4 * N) sampleRate EnableState.ENABLED g) N 0
      (loopStart pState)
    rw [hdepth]
    rw [show pState.oldDepth = (phaserLoop m
      (loopEnv m p pState pInput (4 * N) sampleRate EnableState.ENABLED g) N 0
      (loopStart pState)).1.pState.oldDepth from ho.symm]

/-- The whole buffer: its output and state in terms of the two halves of its iterations. -/
theorem processChannel_whole (m : CMath α) (p : Params α) (pState : PhaserGroupState α)
    (pInput : List α) (N sampleRate : Nat) (g : GroupFeatureState α) :
    (processChannel m p pState pInput (4 * N) sampleRate EnableState.ENABLED g).2
        = (phaserLoop m (loopEnv m p pState pInput (4 * N) sampleRate EnableState.ENABLED g)
            N 0 (loopStart pState)).2
          ++ (phaserLoop m (loopEnv m p pState pInput (4 * N) sampleRate EnableState.ENABLED g)
            N (0 + kChannels * N)
            (phaserLoop m (loopEnv m p pState pInput (4 * N) sampleRate EnableState.ENABLED g)
              N 0 (loopStart pState)).1).2
      ∧ (processChannel m p pState pInput (4 * N) sampleRate EnableState.ENABLED g).1
        = { (phaserLoop m (loopEnv m p pState pInput (4 * N) sampleRate EnableState.ENABLED g)
            N (0 + kChannels * N)
            (phaserLoop m (loopEnv m p pState pInput (4 * N) sampleRate EnableState.ENABLED g)
              N 0 (loopStart pState)).1).1.pState with
            oldDepth := targetDepth p EnableState.ENABLED } := by
  have hen : ∀ s : PhaserGroupState α, enterState s EnableState.ENABLED = s :=
    fun s => enterState_of_ne s (by decide)
  have hn4 : (4 * N + 1) / 2 = N + N := by omega
  have hsplit := phaserLoop_append m
    (loopEnv m p pState pInput (4 * N) sampleRate EnableState.ENABLED g) N N 0
    (loopStart pState)
  constructor
  · simp only [processChannel, hn4, hen]
    rw [hsplit.2]
  · simp only [processChannel, hn4, hen]
    rw [hsplit.1]

/-- Two consecutive `ENABLED` buffers against one buffer holding both, with no feedback and a
constant depth: same output, same final state. -/
theorem processChannel_split (m : CMath α) (p : Params α) (pState : PhaserGroupState α)
    (pInput : List α) (N sampleRate : Nat) (g : GroupFeatureState α)
    (hdepth : targetDepth p EnableState.ENABLED = pState.oldDepth)
    (hfb : p.feedback = 0) (h32 : N % updateCoef = 0) :
    (processChannel m p pState pInput (4 * N) sampleRate EnableState.ENABLED g).2
        = (processChannel m p pState (pInput.take (2 * N)) (2 * N) sampleRate
            EnableState.ENABLED g).2
          ++ (processChannel m p
              (processChannel m p pState (pInput.take (2 * N)) (2 * N) sampleRate
                EnableState.ENABLED g).1
              (pInput.drop (2 * N)) (2 * N) sampleRate EnableState.ENABLED g).2
      ∧ (processChannel m p pState pInput (4 * N) sampleRate EnableState.ENABLED g).1
        = (processChannel m p
              (processChannel m p pState (pInput.take (2 * N)) (2 * N) sampleRate
                EnableState.ENABLED g).1
              (pInput.drop (2 * N)) (2 * N) sampleRate EnableState.ENABLED g).1 := by
  have hen : ∀ s : PhaserGroupState α, enterState s EnableState.ENABLED = s :=
    fun s => enterState_of_ne s (by decide)
  have hn2 : (2 * N + 1) / 2 = N := by omega
  have hfirst := processChannel_first_half m p pState pInput N sampleRate g hdepth
  have hwhole := processChannel_whole m p pState pInput N sampleRate g
  have hB := phaserLoop_sim m
    (loopEnv m p pState pInput (4 * N) sampleRate EnableState.ENABLED g)
    (loopEnv m p (processChannel m p pState (pInput.take (2 * N)) (2 * N) sampleRate
      EnableState.ENABLED g).1 (pInput.drop (2 * N)) (2 * N) sampleRate
      EnableState.ENABLED g)
    rfl rfl rfl rfl rfl N (0 + kChannels * N) 0
    (phaserLoop m (loopEnv m p pState pInput (4 * N) sampleRate EnableState.ENABLED g)
      N 0 (loopStart pState)).1
    (loopStart (processChannel m p pState (pInput.take (2 * N)) (2 * N) sampleRate
      EnableState.ENABLED g).1)
    (fun k _ => by
      simp only [loopEnv, Nat.zero_add, kChannels]
      exact (getD_drop pInput (2 * N) k).symm)
    (fun k _ => by
      have h1 : (processChannel m p pState (pInput.take (2 * N)) (2 * N) sampleRate
          EnableState.ENABLED g).1.oldDepth = targetDepth p EnableState.ENABLED := rfl
      simp only [loopEnv, hen, h1, ← hdepth, frameDepth_const])
    (by rw [hfirst.2]; rfl)
    (by
      rw [phaserLoop_counter]
      simpa [loopStart] using h32)
    (Or.inl (by
      rw [phaserLoop_counter]
      simpa [loopStart] using h32))
    (by simp [loopEnv, hfb])
    (by simp [loopEnv, hfb])
  constructor
  · rw [hwhole.1, hB.2, ← hfirst.1]
    simp only [processChannel, hn2, hen]
  · rw [hwhole.2, hB.1]
    simp only [processChannel, hn2, hen]

/-! ## The cascade on zero taps and its dependence on the input sample -/

theorem getD_set (l : List α) (j k : Nat) (a : α) :
    (l.set j a).getD k 0 = if j = k ∧ j < l.length then a else l.getD k 0 := by
  simp only [List.getD_eq_getElem?_getD, List.getElem?_set]
  by_cases h : j = k
  · subst h
    by_cases h2 : j < l.length
    · simp [h2]
    · simp [h2, List.getElem?_eq_none (not_lt.mp h2)]
  · simp [h]

theorem tapsZero_set (l : List α) (j : Nat) (h : TapsZero l) : TapsZero (l.set j 0) := by
  intro k
  rw [getD_set]
  split_ifs
  · rfl
  · exact h k

theorem tapsZero_replicate (n : Nat) : TapsZero (List.replicate n (0 : α)) := by
  intro k
  simp only [List.getD_eq_getElem?_getD, List.getElem?_replicate]
  split_ifs <;> rfl

theorem processSampleLoop_zero (c : α) :
    ∀ (n j : Nat) (oldIn oldOut : List α), TapsZero oldIn → TapsZero oldOut →
      (processSampleLoop c n j 0 oldIn oldOut).1 = 0
        ∧ TapsZero (processSampleLoop c n j 0 oldIn oldOut).2.1
        ∧ TapsZero (processSampleLoop c n j 0 oldIn oldOut).2.2 := by
  intro n
  induction n with
  | zero => intro j oldIn oldOut hi ho; exact ⟨rfl, hi, ho⟩
  | succ n ih =>
    intro j oldIn oldOut hi ho
    have hy : -c * 0 + oldIn.getD j 0 + c * oldOut.getD j 0 = 0 := by
      rw [hi j, ho j]; ring
    simp only [processSampleLoop, hy]
    exact ih (j + 1) _ _ (tapsZero_set _ _ hi) (tapsZero_set _ _ ho)

theorem processSampleLoop_two_of_zero (c x : α) (oldIn oldOut : List α)
    (hi : TapsZero oldIn) (ho : TapsZero oldOut) :
    (processSampleLoop c 2 0 x oldIn oldOut).1 = c * c * x := by
  simp only [processSampleLoop, getD_set, hi 0, hi 1, ho 0, ho 1]
  simp
  ring

theorem processSampleLoop_two_sub (c x y : α) (oldIn oldOut : List α) :
    (processSampleLoop c 2 0 x oldIn oldOut).1 - (processSampleLoop c 2 0 y oldIn oldOut).1
      = c * c * (x - y) := by
  simp only [processSampleLoop, getD_set]
  simp
  ring

/-- Silence in, silence carried: on zero left taps with a zero carried sample, iterations
over zero input keep the left taps and the carried left sample at zero. -/
theorem phaserLoop_left_zero (m : CMath α) (htanh : m.tanh 0 = 0) (e : LoopEnv α) :
    ∀ (n i : Nat) (v : LoopVars α),
      (∀ k, k < n → e.pInput.getD (i + 2 * k) 0 = 0) →
      v.left = 0 → TapsZero v.pState.oldInLeft → TapsZero v.pState.oldOutLeft →
      (phaserLoop m e n i v).1.left = 0
        ∧ TapsZero (phaserLoop m e n i v).1.pState.oldInLeft
        ∧ TapsZero (phaserLoop m e n i v).1.pState.oldOutLeft := by
  intro n
  induction n with
  | zero => intro i v _ hl hi ho; exact ⟨hl, hi, ho⟩
  | succ n ih =>
    intro i v hin hl hi ho
    have hx : e.pInput.getD i 0 + m.tanh (v.left * e.feedback) = 0 := by
      have := hin 0 (by omega)
      simp only [Nat.mul_zero, Nat.add_zero] at this
      rw [this, hl, zero_mul, htanh, add_zero]
    have hz := processSampleLoop_zero (coefLeft m e v) e.stages.toNat 0 _ _ hi ho
    rw [phaserLoop_succ_fst]
    apply ih
    · intro k hk
      have := hin (k + 1) (by omega)
      have e1 : i + 2 * (k + 1) = i + kChannels + 2 * k := by simp [kChannels]; ring
      rw [e1] at this
      exact this
    · simp only [stepVars, cascadeLeft, processSample, hx]
      exact hz.1
    · simp only [stepVars, cascadeLeft, processSample, hx]
      exact hz.2.1
    · simp only [stepVars, cascadeLeft, processSample, hx]
      exact hz.2.2

theorem pulseInput_getD_lt (k : Nat) (h : k < 62) : (pulseInput : List α).getD k 0 = 0 := by
  simp only [pulseInput, List.getD_eq_getElem?_getD]
  rw [List.getElem?_append_left (by rw [List.length_replicate]; exact h),
    List.getElem?_replicate, if_pos h]
  rfl

theorem pulseInput_getD_62 : (pulseInput : List α).getD 62 0 = 1 := by
  simp only [pulseInput, List.getD_eq_getElem?_getD]
  rw [List.getElem?_append_right (by simp)]
  simp

theorem pulseInput_getD_64 : (pulseInput : List α).getD 64 0 = 0 := by
  simp only [pulseInput, List.getD_eq_getElem?_getD]
  rw [List.getElem?_append_right (by simp)]
  simp [List.getElem?_replicate]

/-! ## The all-pass cascade is bounded -/

/-- One all-pass section with coefficient `c ∈ [0, 1]`: `y + x` is a convex combination of
`oldOut + oldIn` and `oldIn + x`. -/
theorem section_bound (c x a b T : α) (hc0 : 0 ≤ c) (hc1 : c ≤ 1)
    (hx : |x| ≤ T) (ha : |a| ≤ T) (hba : |b + a| ≤ 2 * T) :
    |(-c * x + a + c * b) + x| ≤ 2 * T ∧ |-c * x + a + c * b| ≤ 3 * T := by
  rw [abs_le] at hx ha hba
  have h1 : 0 ≤ c * (2 * T - (b + a)) := mul_nonneg hc0 (by linarith)
  have h2 : 0 ≤ c * (2 * T + (b + a)) := mul_nonneg hc0 (by linarith)
  have h3 : 0 ≤ (1 - c) * (2 * T - (a + x)) := mul_nonneg (by linarith) (by linarith)
  have h4 : 0 ≤ (1 - c) * (2 * T + (a + x)) := mul_nonneg (by linarith) (by linarith)
  have hsum : |(-c * x + a + c * b) + x| ≤ 2 * T := by
    rw [abs_le]
    constructor <;> nlinarith
  refine ⟨hsum, ?_⟩
  rw [abs_le] at hsum ⊢
  constructor <;> linarith [hsum.1, hsum.2]

theorem tapsBounded_set (X x y : α) (oldIn oldOut : List α) (j : Nat)
    (h : TapsBounded X oldIn oldOut) (hx : |x| ≤ X * 3 ^ j) (hyx : |y + x| ≤ 2 * X * 3 ^ j) :
    TapsBounded X (oldIn.set j x) (oldOut.set j y) := by
  refine ⟨by simp [h.1], ?_⟩
  intro k
  rw [getD_set, getD_set, ← h.1]
  by_cases hk : j = k ∧ j < oldIn.length
  · rw [if_pos hk, if_pos hk, ← hk.1]
    exact ⟨hx, hyx⟩
  · rw [if_neg hk, if_neg hk]
    exact h.2 k

theorem processSampleLoop_bounded (c X : α) (hc0 : 0 ≤ c) (hc1 : c ≤ 1) :
    ∀ (n j : Nat) (x : α) (oldIn oldOut : List α), TapsBounded X oldIn oldOut →
      |x| ≤ X * 3 ^ j →
      |(processSampleLoop c n j x oldIn oldOut).1| ≤ X * 3 ^ (j + n)
        ∧ TapsBounded X (processSampleLoop c n j x oldIn oldOut).2.1
            (processSampleLoop c n j x oldIn oldOut).2.2 := by
  intro n
  induction n with
  | zero => intro j x oldIn oldOut h hx; exact ⟨hx, h⟩
  | succ n ih =>
    intro j x oldIn oldOut h hx
    have hs := section_bound c x (oldIn.getD j 0) (oldOut.getD j 0) (X * 3 ^ j) hc0 hc1 hx
      (h.2 j).1 (by rw [← mul_assoc]; exact (h.2 j).2)
    have hy : |-c * x + oldIn.getD j 0 + c * oldOut.getD j 0| ≤ X * 3 ^ (j + 1) := by
      rw [pow_succ]
      linarith [hs.2]
    have ht := tapsBounded_set X x (-c * x + oldIn.getD j 0 + c * oldOut.getD j 0)
      oldIn oldOut j h hx (by rw [mul_assoc]; exact hs.1)
    have := ih (j + 1) _ _ _ ht hy
    simp only [processSampleLoop]
    rw [show j + (n + 1) = j + 1 + n by omega]
    exact this

theorem tapsBounded_replicate (X : α) (hX : 0 ≤ X) (n : Nat) :
    TapsBounded X (List.replicate n (0 : α)) (List.replicate n 0) := by
  refine ⟨rfl, ?_⟩
  intro j
  rw [tapsZero_replicate n j]
  have : (0 : α) ≤ X * 3 ^ j := by positivity
  simp only [abs_zero, add_zero]
  exact ⟨this, by linarith⟩

theorem init_stateBounded : StateBounded (PhaserGroupState.init : PhaserGroupState α) :=
  ⟨tapsBounded_replicate 2 (by norm_num) _, tapsBounded_replicate 2 (by norm_num) _,
    le_refl _, zero_le_one⟩

theorem frameDepth_mem (t d0 : α) (N k : Nat) (hk : k < N)
    (ht0 : 0 ≤ t) (ht1 : t ≤ 1) (hd0 : 0 ≤ d0) (hd1 : d0 ≤ 1) :
    0 ≤ frameDepth t d0 (2 * N) (2 * k) ∧ frameDepth t d0 (2 * N) (2 * k) ≤ 1 := by
  have hN : 1 ≤ N := by omega
  have hNpos : (0 : α) < (N : α) := by exact_mod_cast hN
  rw [frameDepth_closed t d0 N k hN]
  have hl0 : (0 : α) ≤ ((k : α) + 1) / (N : α) := by positivity
  have hl1 : ((k : α) + 1) / (N : α) ≤ 1 := by
    rw [div_le_one hNpos]
    exact_mod_cast hk
  have e : d0 + ((k : α) + 1) * (t - d0) / (N : α)
      = (1 - ((k : α) + 1) / (N : α)) * d0 + ((k : α) + 1) / (N : α) * t := by
    field_simp
    ring
  rw [e]
  constructor
  · have := mul_nonneg (sub_nonneg.mpr hl1) hd0
    have := mul_nonneg hl0 ht0
    linarith
  · have h1 := mul_le_mul_of_nonneg_left hd1 (sub_nonneg.mpr hl1)
    have h2 := mul_le_mul_of_nonneg_left ht1 hl0
    linarith

/-! ## Facts about the real `tanh` -/

theorem real_tanh_nonneg {x : ℝ} (hx : 0 ≤ x) : 0 ≤ Real.tanh x := by
  rw [Real.tanh_eq_sinh_div_cosh]
  exact div_nonneg (Real.sinh_nonneg_iff.mpr hx) (Real.cosh_pos x).le

theorem real_tanh_lt_one (x : ℝ) : Real.tanh x < 1 := by
  rw [Real.tanh_eq_sinh_div_cosh, div_lt_one (Real.cosh_pos x)]
  exact Real.sinh_lt_cosh x

theorem real_neg_one_lt_tanh (x : ℝ) : -1 < Real.tanh x := by
  have h := real_tanh_lt_one (-x)
  rw [Real.tanh_neg] at h
  linarith

theorem real_abs_tanh_le_one (x : ℝ) : |Real.tanh x| ≤ 1 :=
  abs_le.mpr ⟨(real_neg_one_lt_tanh x).le, (real_tanh_lt_one x).le⟩

theorem real_tanh_pos {x : ℝ} (hx : 0 < x) : 0 < Real.tanh x := by
  rw [Real.tanh_eq_sinh_div_cosh]
  exact div_pos (Real.sinh_pos_iff.mpr hx) (Real.cosh_pos x)

theorem real_allpass_coef_eq_exp (x : ℝ) :
    (1 - Real.tanh x) / (1 + Real.tanh x) = Real.exp (-(2 * x)) := by
  have hc := Real.cosh_pos x
  have he := Real.exp_pos x
  have h1 : Real.cosh x + Real.sinh x = Real.exp x := Real.cosh_add_sinh x
  have h2 : Real.cosh x - Real.sinh x = Real.exp (-x) := Real.cosh_sub_sinh x
  have h3 : Real.exp (-(2 * x)) = Real.exp (-x) / Real.exp x := by
    rw [← Real.exp_sub]; congr 1; ring
  rw [Real.tanh_eq_sinh_div_cosh, h3, ← h1, ← h2]
  have hs : Real.cosh x + Real.sinh x ≠ 0 := by rw [h1]; exact he.ne.symm
  field_simp

theorem real_sweep_bounds (range phase : ℝ) (hlo : 0 ≤ range) (hhi : range ≤ 19 / 20) :
    0 ≤ range * (1 / 2 + 1 / 2 * Real.sin phase)
      ∧ range * (1 / 2 + 1 / 2 * Real.sin phase) ≤ 19 / 20 := by
  have h1 := Real.neg_one_le_sin phase
  have h2 := Real.sin_le_one phase
  constructor
  · apply mul_nonneg hlo; linarith
  · calc range * (1 / 2 + 1 / 2 * Real.sin phase) ≤ range * 1 :=
        mul_le_mul_of_nonneg_left (by linarith) hlo
      _ ≤ 19 / 20 := by linarith

theorem real_filterCoef_eq_exp (range phase : ℝ) :
    filterCoef ⟨Real.tanh, Real.sin, Real.pi⟩ range phase
      = Real.exp (-(range * (1 / 2 + 1 / 2 * Real.sin phase))) := by
  simp only [filterCoef]
  rw [real_allpass_coef_eq_exp]
  congr 1
  ring

theorem real_filterCoef_bounds (range phase : ℝ) (hlo : 0 ≤ range) (hhi : range ≤ 19 / 20) :
    Real.exp (-(19 / 20)) ≤ filterCoef ⟨Real.tanh, Real.sin, Real.pi⟩ range phase
      ∧ filterCoef ⟨Real.tanh, Real.sin, Real.pi⟩ range phase ≤ 1 := by
  have hw := real_sweep_bounds range phase hlo hhi
  rw [real_filterCoef_eq_exp]
  constructor
  · exact Real.exp_le_exp.mpr (by linarith [hw.2])
  · exact (Real.exp_le_exp.mpr (by linarith [hw.1])).trans_eq Real.exp_zero

theorem real_filterCoef_pos (range phase : ℝ) :
    0 < filterCoef ⟨Real.tanh, Real.sin, Real.pi⟩ range phase := by
  rw [real_filterCoef_eq_exp]
  exact Real.exp_pos _

theorem real_coefLeft_pos (e : LoopEnv ℝ) (v : LoopVars ℝ)
    (h : v.counter = 0 ∨ 0 < v.filterCoefLeft) :
    0 < coefLeft ⟨Real.tanh, Real.sin, Real.pi⟩ e v := by
  unfold coefLeft
  split_ifs with hc
  · exact real_filterCoef_pos _ _
  · rcases h with h0 | hpos
    · exact absurd (by rw [h0]; rfl) hc
    · exact hpos

theorem real_phaserLoop_coef_pos (e : LoopEnv ℝ) :
    ∀ (n i : Nat) (v : LoopVars ℝ), (v.counter = 0 ∨ 0 < v.filterCoefLeft) →
      (phaserLoop ⟨Real.tanh, Real.sin, Real.pi⟩ e n i v).1.counter = 0
        ∨ 0 < (phaserLoop ⟨Real.tanh, Real.sin, Real.pi⟩ e n i v).1.filterCoefLeft := by
  intro n
  induction n with
  | zero => intro i v h; exact h
  | succ n ih =>
    intro i v h
    rw [phaserLoop_succ_fst]
    exact ih _ _ (Or.inr (real_coefLeft_pos e v h))

/-! ## Boundedness of the output over the reals -/

theorem getD_abs_le_one (l : List ℝ) (h : ∀ x ∈ l, |x| ≤ 1) (j : Nat) : |l.getD j 0| ≤ 1 := by
  rw [List.getD_eq_getElem?_getD]
  by_cases hj : j < l.length
  · rw [List.getElem?_eq_getElem hj]
    exact h _ (List.getElem_mem hj)
  · rw [List.getElem?_eq_none (not_lt.mp hj)]
    simp

theorem real_feed_bound (x l f : ℝ) (hx : |x| ≤ 1) : |x + Real.tanh (l * f)| ≤ 2 * 3 ^ 0 := by
  have h := real_abs_tanh_le_one (l * f)
  rw [abs_le] at hx h ⊢
  constructor <;> norm_num <;> linarith [hx.1, hx.2, h.1, h.2]

theorem real_coef_mem (e : LoopEnv ℝ) (v : LoopVars ℝ) (hr0 : 0 ≤ e.range)
    (hr1 : e.range ≤ 19 / 20) (hv : LoopBounded v) :
    (0 ≤ coefLeft ⟨Real.tanh, Real.sin, Real.pi⟩ e v
        ∧ coefLeft ⟨Real.tanh, Real.sin, Real.pi⟩ e v ≤ 1)
      ∧ (0 ≤ coefRight ⟨Real.tanh, Real.sin, Real.pi⟩ e v
        ∧ coefRight ⟨Real.tanh, Real.sin, Real.pi⟩ e v ≤ 1) := by
  unfold coefLeft coefRight
  split_ifs
  · exact ⟨⟨(real_filterCoef_pos _ _).le, (real_filterCoef_bounds _ _ hr0 hr1).2⟩,
      ⟨(real_filterCoef_pos _ _).le, (real_filterCoef_bounds _ _ hr0 hr1).2⟩⟩
  · exact ⟨hv.2.2.1, hv.2.2.2⟩

theorem real_cascade_bounded (e : LoopEnv ℝ) (i : Nat) (v : LoopVars ℝ)
    (hin : ∀ j, |e.pInput.getD j 0| ≤ 1) (hr0 : 0 ≤ e.range) (hr1 : e.range ≤ 19 / 20)
    (hv : LoopBounded v) :
    (|(cascadeLeft ⟨Real.tanh, Real.sin, Real.pi⟩ e i v).1| ≤ 2 * 3 ^ e.stages.toNat
        ∧ TapsBounded 2 (cascadeLeft ⟨Real.tanh, Real.sin, Real.pi⟩ e i v).2.1
            (cascadeLeft ⟨Real.tanh, Real.sin, Real.pi⟩ e i v).2.2)
      ∧ (|(cascadeRight ⟨Real.tanh, Real.sin, Real.pi⟩ e i v).1| ≤ 2 * 3 ^ e.stages.toNat
        ∧ TapsBounded 2 (cascadeRight ⟨Real.tanh, Real.sin, Real.pi⟩ e i v).2.1
            (cascadeRight ⟨Real.tanh, Real.sin, Real.pi⟩ e i v).2.2) := by
  have hc := real_coef_mem e v hr0 hr1 hv
  constructor
  · have := processSampleLoop_bounded _ 2 hc.1.1 hc.1.2 e.stages.toNat 0 _ _ _ hv.1
      (real_feed_bound (e.pInput.getD i 0) v.left e.feedback (hin i))
    rw [Nat.zero_add] at this
    exact this
  · have := processSampleLoop_bounded _ 2 hc.2.1 hc.2.2 e.stages.toNat 0 _ _ _ hv.2.1
      (real_feed_bound (e.pInput.getD (i + 1) 0) v.right e.feedback (hin (i + 1)))
    rw [Nat.zero_add] at this
    exact this

theorem real_step_bounded (e : LoopEnv ℝ) (i : Nat) (v : LoopVars ℝ)
    (hin : ∀ j, |e.pInput.getD j 0| ≤ 1) (hr0 : 0 ≤ e.range) (hr1 : e.range ≤ 19 / 20)
    (hv : LoopBounded v) : LoopBounded (stepVars ⟨Real.tanh, Real.sin, Real.pi⟩ e i v) := by
  have hc := real_coef_mem e v hr0 hr1 hv
  have hb := real_cascade_bounded e i v hin hr0 hr1 hv
  exact ⟨hb.1.2, hb.2.2, hc.1, hc.2⟩

theorem mix_bound (x l d P : ℝ) (hx : |x| ≤ 1) (hl : |l| ≤ 2 * P) (hd0 : 0 ≤ d) (hd1 : d ≤ 1)
    (hP : 0 ≤ P) : |x * (1 - 1 / 2 * d) + l * d * (1 / 2)| ≤ 1 + P := by
  rw [abs_le] at hx hl ⊢
  have h1 : 0 ≤ (1 - x) * (1 - 1 / 2 * d) := mul_nonneg (by linarith) (by linarith)
  have h2 : 0 ≤ (1 + x) * (1 - 1 / 2 * d) := mul_nonneg (by linarith) (by linarith)
  have h3 : 0 ≤ (2 * P - l) * d := mul_nonneg (by linarith) hd0
  have h4 : 0 ≤ (2 * P + l) * d := mul_nonneg (by linarith) hd0
  have h5 : 0 ≤ P * (1 - d) := mul_nonneg hP (by linarith)
  constructor <;> nlinarith

theorem real_stepOutput_bounded (e : LoopEnv ℝ) (N k : Nat) (v : LoopVars ℝ)
    (hin : ∀ j, |e.pInput.getD j 0| ≤ 1) (hr0 : 0 ≤ e.range) (hr1 : e.range ≤ 19 / 20)
    (hns : e.numSamples = 2 * N) (hk : k < N)
    (ht0 : 0 ≤ e.depth) (ht1 : e.depth ≤ 1) (hd0 : 0 ≤ e.oldDepth) (hd1 : e.oldDepth ≤ 1)
    (hv : LoopBounded v) :
    ∀ y ∈ stepOutput ⟨Real.tanh, Real.sin, Real.pi⟩ e (2 * k) v,
      |y| ≤ 1 + 3 ^ e.stages.toNat := by
  have hb := real_cascade_bounded e (2 * k) v hin hr0 hr1 hv
  have hd := frameDepth_mem e.depth e.oldDepth N k hk ht0 ht1 hd0 hd1
  rw [← hns] at hd
  have hP : (0 : ℝ) ≤ 3 ^ e.stages.toNat := by positivity
  intro y hy
  simp only [stepOutput, List.mem_cons, List.mem_singleton, List.mem_nil_iff, or_false] at hy
  rcases hy with rfl | rfl
  · exact mix_bound _ _ _ _ (hin _) hb.1.1 hd.1 hd.2 hP
  · exact mix_bound _ _ _ _ (hin _) hb.2.1 hd.1 hd.2 hP

theorem real_phaserLoop_bounded (e : LoopEnv ℝ) (N : Nat)
    (hin : ∀ j, |e.pInput.getD j 0| ≤ 1) (hr0 : 0 ≤ e.range) (hr1 : e.range ≤ 19 / 20)
    (hns : e.numSamples = 2 * N)
    (ht0 : 0 ≤ e.depth) (ht1 : e.depth ≤ 1) (hd0 : 0 ≤ e.oldDepth) (hd1 : e.oldDepth ≤ 1) :
    ∀ (n k : Nat) (v : LoopVars ℝ), k + n ≤ N → LoopBounded v →
      (∀ y ∈ (phaserLoop ⟨Real.tanh, Real.sin, Real.pi⟩ e n (2 * k) v).2,
          |y| ≤ 1 + 3 ^ e.stages.toNat)
        ∧ LoopBounded (phaserLoop ⟨Real.tanh, Real.sin, Real.pi⟩ e n (2 * k) v).1 := by
  intro n
  induction n with
  | zero =>
    intro k v _ hv
    exact ⟨by intro y hy; simp [phaserLoop] at hy, hv⟩
  | succ n ih =>
    intro k v hk hv
    have hstep := real_step_bounded e (2 * k) v hin hr0 hr1 hv
    have hout := real_stepOutput_bounded e N k v hin hr0 hr1 hns (by omega) ht0 ht1 hd0 hd1 hv
    have hrec := ih (k + 1) _ (by omega) hstep
    have e2 : 2 * k + kChannels = 2 * (k + 1) := by simp [kChannels]; ring
    simp only [phaserLoop]
    rw [e2]
    refine ⟨?_, hrec.2⟩
    intro y hy
    rcases List.mem_append.mp hy with h | h
    · exact hout y h
    · exact hrec.1 y h

theorem stagesOf_toNat_le (p : Params ℝ) (h : p.stages ≤ 6) : (stagesOf p).toNat ≤ 12 := by
  have h12 : stagesOf p ≤ 12 := by
    unfold stagesOf toInt
    split_ifs with h0
    · have : ⌊2 * p.stages⌋ < 13 := by rw [Int.floor_lt]; push_cast; linarith
      omega
    · have : ⌈2 * p.stages⌉ ≤ 0 := by rw [Int.ceil_le]; push_cast; linarith
      omega
  omega

theorem enterState_stateBounded (s : PhaserGroupState ℝ) (en : EnableState)
    (hs : StateBounded s) : StateBounded (enterState s en) := by
  unfold enterState
  split_ifs
  · exact init_stateBounded
  · exact hs

theorem targetDepth_mem (p : Params ℝ) (en : EnableState) (h0 : 0 ≤ p.depth)
    (h1 : p.depth ≤ 1) : 0 ≤ targetDepth p en ∧ targetDepth p en ≤ 1 := by
  unfold targetDepth
  split_ifs
  · exact ⟨h0, h1⟩
  · exact ⟨le_refl _, zero_le_one⟩

theorem real_processChannel_bounded (p : Params ℝ) (s : PhaserGroupState ℝ)
    (pInput : List ℝ) (numSamples sampleRate : Nat) (en : EnableState)
    (g : GroupFeatureState ℝ) (hs : StateBounded s)
    (hr0 : 0 ≤ p.range) (hr1 : p.range ≤ 19 / 20) (hd0 : 0 ≤ p.depth) (hd1 : p.depth ≤ 1)
    (hst : p.stages ≤ 6) (heven : numSamples % 2 = 0) (hin : ∀ x ∈ pInput, |x| ≤ 1) :
    (∀ y ∈ (processChannel ⟨Real.tanh, Real.sin, Real.pi⟩ p s pInput numSamples sampleRate
        en g).2, |y| ≤ 1 + 3 ^ 12)
      ∧ StateBounded (processChannel ⟨Real.tanh, Real.sin, Real.pi⟩ p s pInput numSamples
          sampleRate en g).1 := by
  obtain ⟨N, rfl⟩ : ∃ N, numSamples = 2 * N := ⟨numSamples / 2, by omega⟩
  have hn : (2 * N + 1) / 2 = N := by omega
  have hen := enterState_stateBounded s en hs
  have ht := targetDepth_mem p en hd0 hd1
  have hloop := real_phaserLoop_bounded
    (loopEnv ⟨Real.tanh, Real.sin, Real.pi⟩ p s pInput (2 * N) sampleRate en g) N
    (getD_abs_le_one pInput hin) hr0 hr1 rfl ht.1 ht.2 hen.2.2.1 hen.2.2.2 N 0
    (loopStart (enterState s en)) (by omega)
    ⟨hen.1, hen.2.1, ⟨le_refl _, zero_le_one⟩, ⟨le_refl _, zero_le_one⟩⟩
  rw [Nat.mul_zero] at hloop
  have hS : (3 : ℝ) ^ (stagesOf p).toNat ≤ 3 ^ 12 :=
    pow_le_pow_right₀ (by norm_num) (stagesOf_toNat_le p hst)
  simp only [processChannel, hn]
  refine ⟨?_, hloop.2.1, hloop.2.2.1, ht.1, ht.2⟩
  intro y hy
  have := hloop.1 y hy
  have hS' : (3 : ℝ) ^ (loopEnv ⟨Real.tanh, Real.sin, Real.pi⟩ p s pInput (2 * N) sampleRate
      en g).stages.toNat ≤ 3 ^ 12 := hS
  linarith

theorem real_runBuffers_bounded :
    ∀ (calls : List (BufferCall ℝ)) (s : PhaserGroupState ℝ), StateBounded s →
      (∀ c ∈ calls, 0 ≤ c.params.range ∧ c.params.range ≤ 19 / 20
        ∧ 0 ≤ c.params.depth ∧ c.params.depth ≤ 1 ∧ c.params.stages ≤ 6
        ∧ c.numSamples % 2 = 0 ∧ ∀ x ∈ c.pInput, |x| ≤ 1) →
      ∀ out ∈ (runBuffers ⟨Real.tanh, Real.sin, Real.pi⟩ s calls).2,
        ∀ y ∈ out, |y| ≤ 1 + 3 ^ 12 := by
  intro calls
  induction calls with
  | nil => intro s _ _ out hout; simp [runBuffers] at hout
  | cons c cs ih =>
    intro s hs hv out hout
    obtain ⟨h1, h2, h3, h4, h5, h6, h7⟩ := hv c (List.mem_cons_self _ _)
    have hb := real_processChannel_bounded c.params s c.pInput c.numSamples c.sampleRate
      c.enableState c.groupFeatures hs h1 h2 h3 h4 h5 h6 h7
    simp only [runBuffers, List.mem_cons] at hout
    rcases hout with rfl | hrest
    · exact hb.1
    · exact ih _ hb.2 (fun c' hc' => hv c' (List.mem_cons_of_mem _ hc')) out hrest

/-! ## A pulse across a buffer boundary -/

theorem phaserLoop_head (m : CMath ℝ) (e : LoopEnv ℝ) (n i : Nat) (v : LoopVars ℝ) :
    (phaserLoop m e (n + 1) i v).2.getD 0 0
      = e.pInput.getD i 0 * (1 - 1 / 2 * frameDepth e.depth e.oldDepth e.numSamples i)
        + (cascadeLeft m e i v).1 * frameDepth e.depth e.oldDepth e.numSamples i * (1 / 2) := by
  simp [phaserLoop, stepOutput]

theorem feedbackParams_stages : stagesOf (feedbackParams : Params ℝ) = 2 := by
  have h : (0 : ℝ) ≤ 2 * 1 := by norm_num
  simp only [stagesOf, feedbackParams, toInt, h, if_true]
  rw [Int.floor_eq_iff]
  constructor <;> norm_num

/-- At a buffer boundary that falls on a coefficient refresh, a buffer that continues with a
positive carried left sample and a buffer that starts afresh write different first samples
(feedback `1/2`, two sections, depth `1/2`, silent input). -/
theorem boundary_heads_differ (e e' : LoopEnv ℝ) (r : LoopVars ℝ) (n n' i : Nat)
    (hn : 0 < n) (hn' : 0 < n')
    (hrange : e.range = e'.range) (hfs : e.freqSkip = e'.freqSkip)
    (hstages : e.stages = 2) (hstages' : e'.stages = 2)
    (hfb : e.feedback = 1 / 2) (hfb' : e'.feedback = 1 / 2)
    (hc : r.counter % updateCoef = 0) (hleft : 0 < r.left)
    (hin : e.pInput.getD i 0 = 0) (hin' : e'.pInput.getD 0 0 = 0)
    (hd : frameDepth e.depth e.oldDepth e.numSamples i = 1 / 2)
    (hd' : frameDepth e'.depth e'.oldDepth e'.numSamples 0 = 1 / 2) :
    (phaserLoop ⟨Real.tanh, Real.sin, Real.pi⟩ e n i r).2.getD 0 0
      ≠ (phaserLoop ⟨Real.tanh, Real.sin, Real.pi⟩ e' n' 0 (loopStart r.pState)).2.getD
          0 0 := by
  obtain ⟨k, rfl⟩ := Nat.exists_eq_succ_of_ne_zero hn.ne.symm
  obtain ⟨k', rfl⟩ := Nat.exists_eq_succ_of_ne_zero hn'.ne.symm
  intro h
  rw [phaserLoop_head, phaserLoop_head, hin, hin', hd, hd'] at h
  have hcoef : coefLeft ⟨Real.tanh, Real.sin, Real.pi⟩ e' (loopStart r.pState)
      = coefLeft ⟨Real.tanh, Real.sin, Real.pi⟩ e r := by
    simp [coefLeft, loopStart, hc, nextLeftPhase, hrange, hfs]
  have hcpos : 0 < coefLeft ⟨Real.tanh, Real.sin, Real.pi⟩ e r := by
    unfold coefLeft
    rw [if_pos hc]
    exact real_filterCoef_pos _ _
  have hL : (cascadeLeft ⟨Real.tanh, Real.sin, Real.pi⟩ e i r).1
      = (processSampleLoop (coefLeft ⟨Real.tanh, Real.sin, Real.pi⟩ e r) 2 0
          (0 + Real.tanh (r.left * (1 / 2))) r.pState.oldInLeft r.pState.oldOutLeft).1 := by
    unfold cascadeLeft processSample
    rw [hstages, hin, hfb]
    rfl
  have hL' : (cascadeLeft ⟨Real.tanh, Real.sin, Real.pi⟩ e' 0 (loopStart r.pState)).1
      = (processSampleLoop (coefLeft ⟨Real.tanh, Real.sin, Real.pi⟩ e r) 2 0
          (0 + Real.tanh (0 * (1 / 2))) r.pState.oldInLeft r.pState.oldOutLeft).1 := by
    unfold cascadeLeft processSample
    rw [hcoef, hstages', hin', hfb']
    rfl
  have hsub := processSampleLoop_two_sub (coefLeft ⟨Real.tanh, Real.sin, Real.pi⟩ e r)
    (0 + Real.tanh (r.left * (1 / 2))) (0 + Real.tanh (0 * (1 / 2)))
    r.pState.oldInLeft r.pState.oldOutLeft
  rw [← hL, ← hL'] at hsub
  have ht := real_tanh_pos (x := r.left * (1 / 2)) (by positivity)
  simp only [zero_mul, Real.tanh_zero, add_zero, zero_add, sub_zero] at hsub
  have : 0 < coefLeft ⟨Real.tanh, Real.sin, Real.pi⟩ e r
      * coefLeft ⟨Real.tanh, Real.sin, Real.pi⟩ e r * Real.tanh (r.left * (1 / 2)) :=
    mul_pos (mul_pos hcpos hcpos) ht
  linarith

/-- The carried left sample after the first 32 frames of the pulse input is the square of a
positive coefficient. -/
theorem pulse_carried_left_pos :
    0 < (phaserLoop ⟨Real.tanh, Real.sin, Real.pi⟩
      (loopEnv ⟨Real.tanh, Real.sin, Real.pi⟩ feedbackParams halfDepthState pulseInput
        (4 * 32) 44100 EnableState.ENABLED ⟨false, 0⟩) 32 0
      (loopStart (halfDepthState : PhaserGroupState ℝ))).1.left := by
  have hsplit := (phaserLoop_append ⟨Real.tanh, Real.sin, Real.pi⟩
    (loopEnv ⟨Real.tanh, Real.sin, Real.pi⟩ feedbackParams halfDepthState pulseInput
        (4 * 32) 44100 EnableState.ENABLED ⟨false, 0⟩) 31 1 0
    (loopStart (halfDepthState : PhaserGroupState ℝ))).1
  have hz := phaserLoop_left_zero ⟨Real.tanh, Real.sin, Real.pi⟩ Real.tanh_zero
    (loopEnv ⟨Real.tanh, Real.sin, Real.pi⟩ feedbackParams halfDepthState pulseInput
        (4 * 32) 44100 EnableState.ENABLED ⟨false, 0⟩) 31 0
    (loopStart (halfDepthState : PhaserGroupState ℝ))
    (fun k hk => by
      simp only [loopEnv]
      exact pulseInput_getD_lt _ (by omega))
    rfl (tapsZero_replicate _) (tapsZero_replicate _)
  have hc := real_phaserLoop_coef_pos
    (loopEnv ⟨Real.tanh, Real.sin, Real.pi⟩ feedbackParams halfDepthState pulseInput
        (4 * 32) 44100 EnableState.ENABLED ⟨false, 0⟩) 31 0
    (loopStart (halfDepthState : PhaserGroupState ℝ)) (Or.inl rfl)
  have hcpos := real_coefLeft_pos
    (loopEnv ⟨Real.tanh, Real.sin, Real.pi⟩ feedbackParams halfDepthState pulseInput
        (4 * 32) 44100 EnableState.ENABLED ⟨false, 0⟩) _ hc
  rw [show (32 : Nat) = 31 + 1 from rfl, hsplit, phaserLoop_succ_fst, phaserLoop_zero_fst]
  simp only [stepVars, cascadeLeft, processSample]
  rw [hz.1]
  have hst : (loopEnv ⟨Real.tanh, Real.sin, Real.pi⟩ (feedbackParams : Params ℝ) halfDepthState
      pulseInput (4 * 32) 44100 EnableState.ENABLED ⟨false, 0⟩).stages.toNat = 2 := by
    show (stagesOf (feedbackParams : Params ℝ)).toNat = 2
    rw [feedbackParams_stages]; rfl
  rw [hst, processSampleLoop_two_of_zero _ _ _ _ hz.2.1 hz.2.2]
  have hin : (loopEnv ⟨Real.tanh, Real.sin, Real.pi⟩ (feedbackParams : Params ℝ) halfDepthState
      pulseInput (4 * 32) 44100 EnableState.ENABLED ⟨false, 0⟩).pInput.getD
        (0 + kChannels * 31) 0 = 1 := pulseInput_getD_62
  rw [hin, zero_mul, Real.tanh_zero, add_zero, mul_one]
  exact mul_pos hcpos hcpos

end Model

/-! # The properties -/

section Properties

variable {α : Type} [LinearOrderedField α] [FloorRing α]

/-! ## C1: stereo offset -/

/-- C1 (evaluation at the failing input): from the reset state, one buffer of two frames
with the stereo toggle on leaves `rightPhase = leftPhase = π / 22050`, so the offset
`(rightPhase - leftPhase) mod 2π` is `0`, not `π`. -/
theorem stereo_offset_two_frames :
    (processCall ⟨Real.tanh, Real.sin, Real.pi⟩ PhaserGroupState.init
        (stereoCall : BufferCall ℝ)).1.rightPhase
      = (processCall ⟨Real.tanh, Real.sin, Real.pi⟩ PhaserGroupState.init
        (stereoCall : BufferCall ℝ)).1.leftPhase
    ∧ (processCall ⟨Real.tanh, Real.sin, Real.pi⟩ PhaserGroupState.init
        (stereoCall : BufferCall ℝ)).1.leftPhase = Real.pi / 22050
    ∧ fmodf ((processCall ⟨Real.tanh, Real.sin, Real.pi⟩ PhaserGroupState.init
          (stereoCall : BufferCall ℝ)).1.rightPhase
        - (processCall ⟨Real.tanh, Real.sin, Real.pi⟩ PhaserGroupState.init
          (stereoCall : BufferCall ℝ)).1.leftPhase) (2 * Real.pi) ≠ Real.pi := by
  have hpi := Real.pi_pos
  have hfs : freqSkipOf (⟨Real.tanh, Real.sin, Real.pi⟩ : CMath ℝ)
      (lfoPeriod (stereoCall : BufferCall ℝ).params 44100 ⟨false, 0⟩) = Real.pi / 44100 := by
    simp only [freqSkipOf, lfoPeriod, stereoCall, kChannels]
    norm_num
    ring
  have hsc : toInt ((stereoCall : BufferCall ℝ).params.stereo) = 1 := by
    simp only [stereoCall, toInt]
    norm_num
  have heq : (processCall ⟨Real.tanh, Real.sin, Real.pi⟩ PhaserGroupState.init
        (stereoCall : BufferCall ℝ)).1.rightPhase
      = (processCall ⟨Real.tanh, Real.sin, Real.pi⟩ PhaserGroupState.init
        (stereoCall : BufferCall ℝ)).1.leftPhase := by
    have hn : ((stereoCall : BufferCall ℝ).numSamples + 1) / 2 = 0 + 1 + 1 := rfl
    simp only [processCall, processChannel, hn, phaserLoop_succ_fst, phaserLoop_zero_fst]
    apply two_steps_phases_equal _ hpi
    · show 0 ≤ freqSkipOf _ _
      have : (stereoCall : BufferCall ℝ).sampleRate = 44100 := rfl
      rw [this, show (stereoCall : BufferCall ℝ).groupFeatures = ⟨false, 0⟩ from rfl, hfs]
      positivity
    · exact hsc
    · exact le_refl _
    · rfl
  have hleft : (processCall ⟨Real.tanh, Real.sin, Real.pi⟩ PhaserGroupState.init
        (stereoCall : BufferCall ℝ)).1.leftPhase = Real.pi / 22050 := by
    have hn : ((stereoCall : BufferCall ℝ).numSamples + 1) / 2 = 0 + 1 + 1 := rfl
    simp only [processCall, processChannel, hn, phaserLoop_succ_fst, phaserLoop_zero_fst]
    show fmodf (fmodf ((0 : ℝ) + freqSkipOf _ (lfoPeriod _ 44100 ⟨false, 0⟩)) (2 * Real.pi)
      + freqSkipOf _ (lfoPeriod _ 44100 ⟨false, 0⟩)) (2 * Real.pi) = _
    rw [hfs, zero_add]
    have h1 : fmodf (Real.pi / 44100) (2 * Real.pi) = Real.pi / 44100 :=
      fmodf_of_lt (by positivity) (by linarith [div_le_self hpi.le (show (1:ℝ) ≤ 44100 by norm_num)])
    rw [h1]
    have h2 : Real.pi / 44100 + Real.pi / 44100 = Real.pi / 22050 := by ring
    rw [h2]
    exact fmodf_of_lt (by positivity)
      (by linarith [div_le_self hpi.le (show (1:ℝ) ≤ 22050 by norm_num)])
  refine ⟨heq, hleft, ?_⟩
  rw [heq, sub_self]
  have : fmodf (0 : ℝ) (2 * Real.pi) = 0 := fmodf_of_lt (le_refl _) (by linarith)
  rw [this]
  exact hpi.ne

/-! ## C2: phase wrap -/

/-- C2: phase wrap invariant.  From a state whose phases lie in `[0, 2π)`, a call with a
positive sample rate, parameters in their declared ranges and a positive beat length when a
tempo is present leaves both phases in `[0, 2π)`; hence after any run of such calls from the
reset state the phases lie in `[0, 2π)`. -/
theorem phase_wrap_invariant (pState : PhaserGroupState ℝ) (c : BufferCall ℝ)
    (calls : List (BufferCall ℝ))
    (hstate : PhaseWrapped ⟨Real.tanh, Real.sin, Real.pi⟩ pState)
    (hcall : c.Valid) (hcalls : ∀ b ∈ calls, b.Valid) :
    ((0 ≤ (processChannel ⟨Real.tanh, Real.sin, Real.pi⟩ c.params pState c.pInput c.numSamples
            c.sampleRate c.enableState c.groupFeatures).1.leftPhase
        ∧ (processChannel ⟨Real.tanh, Real.sin, Real.pi⟩ c.params pState c.pInput c.numSamples
            c.sampleRate c.enableState c.groupFeatures).1.leftPhase < 2 * Real.pi)
      ∧ (0 ≤ (processChannel ⟨Real.tanh, Real.sin, Real.pi⟩ c.params pState c.pInput
            c.numSamples c.sampleRate c.enableState c.groupFeatures).1.rightPhase
        ∧ (processChannel ⟨Real.tanh, Real.sin, Real.pi⟩ c.params pState c.pInput c.numSamples
            c.sampleRate c.enableState c.groupFeatures).1.rightPhase < 2 * Real.pi))
      ∧ ((0 ≤ (runBuffers ⟨Real.tanh, Real.sin, Real.pi⟩ PhaserGroupState.init calls).1.leftPhase
        ∧ (runBuffers ⟨Real.tanh, Real.sin, Real.pi⟩ PhaserGroupState.init calls).1.leftPhase
            < 2 * Real.pi)
      ∧ (0 ≤ (runBuffers ⟨Real.tanh, Real.sin, Real.pi⟩ PhaserGroupState.init
            calls).1.rightPhase
        ∧ (runBuffers ⟨Real.tanh, Real.sin, Real.pi⟩ PhaserGroupState.init calls).1.rightPhase
            < 2 * Real.pi)) :=
  ⟨processChannel_phaseWrapped _ Real.pi_pos _ _ _ _ _ _ _ hstate hcall.params_ok.stereo_min
      hcall.beat_pos,
    runBuffers_phaseWrapped _ Real.pi_pos calls _ (init_phaseWrapped _ Real.pi_pos) hcalls⟩

/-- Witness for C2: the reset state, the sample call, and a run of two such calls. -/
theorem phase_wrap_invariant_witness :
    PhaseWrapped ⟨Real.tanh, Real.sin, Real.pi⟩ (PhaserGroupState.init : PhaserGroupState ℝ)
      ∧ (stereoCall : BufferCall ℝ).Valid
      ∧ (∀ b ∈ [(stereoCall : BufferCall ℝ), stereoCall], b.Valid)
      ∧ (0 ≤ (runBuffers ⟨Real.tanh, Real.sin, Real.pi⟩ PhaserGroupState.init
            [(stereoCall : BufferCall ℝ), stereoCall]).1.leftPhase
        ∧ (runBuffers ⟨Real.tanh, Real.sin, Real.pi⟩ PhaserGroupState.init
            [(stereoCall : BufferCall ℝ), stereoCall]).1.leftPhase < 2 * Real.pi) :=
  have hv : (stereoCall : BufferCall ℝ).Valid :=
    ⟨by norm_num [stereoCall],
      by constructor <;> norm_num [stereoCall],
      by simp [stereoCall]⟩
  have hall : ∀ b ∈ [(stereoCall : BufferCall ℝ), stereoCall], b.Valid := by
    intro b hb
    simp only [List.mem_cons, List.mem_singleton, List.mem_nil_iff, or_false, or_self] at hb
    rw [hb]; exact hv
  ⟨init_phaseWrapped _ Real.pi_pos, hv, hall,
    (phase_wrap_invariant PhaserGroupState.init stereoCall [stereoCall, stereoCall]
      (init_phaseWrapped _ Real.pi_pos) hv hall).2.1⟩

/-! ## C3: identity at zero depth -/

/-- C3: identity at zero depth.  For every state whose `oldDepth` is `0`, every parameter
snapshot and every input buffer of `frameCount ≥ 1` frames, processing with `DISABLING`
writes the input samples unchanged (the whole output buffer equals the input buffer) and
leaves `oldDepth = 0`. -/
theorem identity_at_zero_depth (m : CMath α) (p : Params α) (pState : PhaserGroupState α)
    (pInput : List α) (frameCount sampleRate : Nat) (groupFeatures : GroupFeatureState α)
    (hdepth : pState.oldDepth = 0) (_hframes : 1 ≤ frameCount)
    (hlen : pInput.length = 2 * frameCount) :
    (processChannel m p pState pInput (2 * frameCount) sampleRate EnableState.DISABLING
        groupFeatures).2 = pInput
      ∧ (∀ n, n < 2 * frameCount →
          (processChannel m p pState pInput (2 * frameCount) sampleRate EnableState.DISABLING
            groupFeatures).2.getD n 0 = pInput.getD n 0)
      ∧ (processChannel m p pState pInput (2 * frameCount) sampleRate EnableState.DISABLING
          groupFeatures).1.oldDepth = 0 := by
  have hout : (processChannel m p pState pInput (2 * frameCount) sampleRate
      EnableState.DISABLING groupFeatures).2 = pInput := by
    have hn : (2 * frameCount + 1) / 2 = frameCount := by omega
    simp only [processChannel, hn]
    rw [phaserLoop_dry m _ (by simp [loopEnv, targetDepth])
      (by simp [loopEnv, enterState, hdepth]) frameCount 0 _ (by simp [loopEnv, hlen])]
    simp [loopEnv, ← hlen]
  refine ⟨hout, ?_, ?_⟩
  · intro n _
    rw [hout]
  · simp [processChannel, targetDepth]

/-- Witness for C3: one frame `[1, -1]` processed from the reset state. -/
theorem identity_at_zero_depth_witness :
    (PhaserGroupState.init : PhaserGroupState ℝ).oldDepth = 0 ∧ 1 ≤ 1
      ∧ ([1, -1] : List ℝ).length = 2 * 1
      ∧ ((processChannel ⟨Real.tanh, Real.sin, Real.pi⟩
            ⟨7 / 2, 1 / 2, 1 / 2, 1 / 2, 1 / 2, false, 0⟩ PhaserGroupState.init
            ([1, -1] : List ℝ) (2 * 1) 44100 EnableState.DISABLING ⟨false, 0⟩).2 = [1, -1]
        ∧ (∀ n, n < 2 * 1 →
          (processChannel ⟨Real.tanh, Real.sin, Real.pi⟩
            ⟨7 / 2, 1 / 2, 1 / 2, 1 / 2, 1 / 2, false, 0⟩ PhaserGroupState.init
            ([1, -1] : List ℝ) (2 * 1) 44100 EnableState.DISABLING ⟨false, 0⟩).2.getD n 0
            = ([1, -1] : List ℝ).getD n 0)
        ∧ (processChannel ⟨Real.tanh, Real.sin, Real.pi⟩
            ⟨7 / 2, 1 / 2, 1 / 2, 1 / 2, 1 / 2, false, 0⟩ PhaserGroupState.init
            ([1, -1] : List ℝ) (2 * 1) 44100 EnableState.DISABLING ⟨false, 0⟩).1.oldDepth = 0) :=
  ⟨rfl, le_refl 1, rfl,
    identity_at_zero_depth _ _ _ _ 1 44100 _ rfl (le_refl 1) rfl⟩

/-! ## C4: depth ramp -/

/-- C4, as amended: depth ramp.  Let `d0` be the `oldDepth` of the state the buffer is
processed from (the prior state, or the reset state when enabling, so `d0 = 0` then) and `t`
the target depth.  In a buffer of `N ≥ 1` frames the depth used at frame `k` is
`d0 + (k+1)*(t - d0)/N`; no step between consecutive frames, nor from `d0` to the first frame,
exceeds `|t - d0|/N`; the last frame uses exactly `t`; and the call leaves `oldDepth = t`. -/
theorem depth_ramp (m : CMath α) (p : Params α) (pState : PhaserGroupState α)
    (pInput : List α) (N sampleRate : Nat) (enableState : EnableState)
    (groupFeatures : GroupFeatureState α) (hN : 1 ≤ N) :
    (loopEnv m p pState pInput (2 * N) sampleRate enableState groupFeatures).depth
        = targetDepth p enableState
      ∧ (loopEnv m p pState pInput (2 * N) sampleRate enableState groupFeatures).oldDepth
        = (enterState pState enableState).oldDepth
      ∧ (enableState ≠ EnableState.ENABLING →
          (enterState pState enableState).oldDepth = pState.oldDepth)
      ∧ (enableState = EnableState.ENABLING → (enterState pState enableState).oldDepth = 0)
      ∧ (∀ k, k < N →
          frameDepth (targetDepth p enableState) (enterState pState enableState).oldDepth
              (2 * N) (2 * k)
            = (enterState pState enableState).oldDepth
              + ((k : α) + 1)
                * (targetDepth p enableState - (enterState pState enableState).oldDepth)
                / (N : α))
      ∧ |frameDepth (targetDepth p enableState) (enterState pState enableState).oldDepth
              (2 * N) 0 - (enterState pState enableState).oldDepth|
          ≤ |targetDepth p enableState - (enterState pState enableState).oldDepth| / (N : α)
      ∧ (∀ k, k + 1 < N →
          |frameDepth (targetDepth p enableState) (enterState pState enableState).oldDepth
                (2 * N) (2 * (k + 1))
              - frameDepth (targetDepth p enableState)
                (enterState pState enableState).oldDepth (2 * N) (2 * k)|
            ≤ |targetDepth p enableState - (enterState pState enableState).oldDepth| / (N : α))
      ∧ frameDepth (targetDepth p enableState) (enterState pState enableState).oldDepth
            (2 * N) (2 * (N - 1)) = targetDepth p enableState
      ∧ (processChannel m p pState pInput (2 * N) sampleRate enableState
            groupFeatures).1.oldDepth = targetDepth p enableState := by
  have hN0 : (0 : α) < (N : α) := by exact_mod_cast hN
  refine ⟨rfl, rfl, ?_, ?_, ?_, ?_, ?_, ?_, ?_⟩
  · intro h; rw [enterState_of_ne _ h]
  · intro h; rw [h, enterState_enabling]; rfl
  · intro k _; exact frameDepth_closed _ _ N k hN
  · have h := frameDepth_closed (targetDepth p enableState)
      (enterState pState enableState).oldDepth N 0 hN
    simp only [Nat.mul_zero] at h
    rw [h, ← abs_of_pos hN0, ← abs_div, abs_of_pos hN0]
    apply le_of_eq
    congr 1
    push_cast
    ring
  · intro k _
    rw [frameDepth_closed _ _ N k hN, frameDepth_closed _ _ N (k + 1) hN]
    rw [← abs_of_pos hN0, ← abs_div, abs_of_pos hN0]
    apply le_of_eq
    congr 1
    push_cast
    ring
  · rw [frameDepth_closed _ _ N (N - 1) hN]
    have : ((N - 1 : Nat) : α) = (N : α) - 1 := by
      rw [Nat.cast_sub hN]; simp
    rw [this]
    field_simp
  · simp [processChannel]

/-- Witness for C4: a two-frame buffer processed with `ENABLED` from the reset state. -/
theorem depth_ramp_witness :
    1 ≤ 2
      ∧ frameDepth
          (targetDepth (⟨7 / 2, 1, 1, 0, 1 / 20, false, 0⟩ : Params ℝ) EnableState.ENABLED)
          (enterState (PhaserGroupState.init : PhaserGroupState ℝ) EnableState.ENABLED).oldDepth
          (2 * 2) (2 * (2 - 1))
        = targetDepth (⟨7 / 2, 1, 1, 0, 1 / 20, false, 0⟩ : Params ℝ) EnableState.ENABLED :=
  ⟨by norm_num,
    (depth_ramp ⟨Real.tanh, Real.sin, Real.pi⟩
      (⟨7 / 2, 1, 1, 0, 1 / 20, false, 0⟩ : Params ℝ) PhaserGroupState.init [0, 0, 0, 0] 2
      44100 EnableState.ENABLED ⟨false, 0⟩ (by norm_num)).2.2.2.2.2.2.2.1⟩

/-- C4 fails as stated when the buffer is processed with `ENABLING` from a state whose
`oldDepth` is not `0`: with prior `oldDepth = 1`, depth parameter `1` and two frames, the
depth used at frame `0` is `1/2` (the ramp starts from the reset value `0`), whereas
`d0 + (0+1)*(t - d0)/N = 1`. -/
theorem depth_ramp_enabling_counterexample :
    frameDepth
        (loopEnv ⟨Real.tanh, Real.sin, Real.pi⟩
          (⟨7 / 2, 1, 1, 0, 1 / 20, false, 0⟩ : Params ℝ)
          { (PhaserGroupState.init : PhaserGroupState ℝ) with oldDepth := 1 }
          [0, 0, 0, 0] (2 * 2) 44100 EnableState.ENABLING ⟨false, 0⟩).depth
        (loopEnv ⟨Real.tanh, Real.sin, Real.pi⟩
          (⟨7 / 2, 1, 1, 0, 1 / 20, false, 0⟩ : Params ℝ)
          { (PhaserGroupState.init : PhaserGroupState ℝ) with oldDepth := 1 }
          [0, 0, 0, 0] (2 * 2) 44100 EnableState.ENABLING ⟨false, 0⟩).oldDepth
        (loopEnv ⟨Real.tanh, Real.sin, Real.pi⟩
          (⟨7 / 2, 1, 1, 0, 1 / 20, false, 0⟩ : Params ℝ)
          { (PhaserGroupState.init : PhaserGroupState ℝ) with oldDepth := 1 }
          [0, 0, 0, 0] (2 * 2) 44100 EnableState.ENABLING ⟨false, 0⟩).numSamples
        (2 * 0) = 1 / 2
      ∧ ({ (PhaserGroupState.init : PhaserGroupState ℝ) with oldDepth := 1 }).oldDepth
          + (((0 : Nat) : ℝ) + 1)
            * (targetDepth (⟨7 / 2, 1, 1, 0, 1 / 20, false, 0⟩ : Params ℝ)
                EnableState.ENABLING
              - ({ (PhaserGroupState.init : PhaserGroupState ℝ) with oldDepth := 1 }).oldDepth)
            / ((2 : Nat) : ℝ) = 1 := by
  constructor
  · simp [loopEnv, targetDepth, enterState, PhaserGroupState.init, frameDepth, depthDeltaOf]
  · simp [targetDepth]

/-! ## C5: reset on enable -/

/-- C5: reset on enable.  Processing a buffer with `ENABLING` gives the same output and the
same final state whatever the prior state, and both equal the result of processing the same
buffer with `ENABLED` from the all-zero state. -/
theorem reset_on_enable (m : CMath α) (p : Params α) (s1 s2 : PhaserGroupState α)
    (pInput : List α) (numSamples sampleRate : Nat) (groupFeatures : GroupFeatureState α) :
    processChannel m p s1 pInput numSamples sampleRate EnableState.ENABLING groupFeatures
        = processChannel m p s2 pInput numSamples sampleRate EnableState.ENABLING groupFeatures
      ∧ processChannel m p s1 pInput numSamples sampleRate EnableState.ENABLING groupFeatures
        = processChannel m p
            { oldInLeft := List.replicate MAX_STAGES 0, oldOutLeft := List.replicate MAX_STAGES 0,
              oldInRight := List.replicate MAX_STAGES 0,
              oldOutRight := List.replicate MAX_STAGES 0,
              leftPhase := 0, rightPhase := 0, oldDepth := 0 }
            pInput numSamples sampleRate EnableState.ENABLED groupFeatures := by
  constructor
  · simp [processChannel, loopEnv, enterState]
  · simp [processChannel, loopEnv, enterState, targetDepth, PhaserGroupState.init]

/-! ## C6: period derivation -/

/-- C6: period derivation.  With a tempo the LFO period in samples is
`q * beatLengthSeconds * sampleRate * 2`, where `q = max(round(2p)/2, 0.25)` divided by `3`
for triplets (`round(2p)/2` being a multiple of `1/2` within `1/4` of `p`); without a tempo
it is `max(p, 0.25) * sampleRate * 2`; `freqSkip = 2π / periodSamples`.  The tempo-sync
example gives `periodSamples = 44100` and `freqSkip = 2π / 44100`. -/
theorem period_derivation (m : CMath α) (p : Params α) (pState : PhaserGroupState α)
    (pInput : List α) (numSamples sampleRate : Nat) (enableState : EnableState)
    (groupFeatures : GroupFeatureState α) (_hrate : 0 < sampleRate) :
    (groupFeatures.has_beat_length_sec = true →
        lfoPeriod p sampleRate groupFeatures
          = (if p.triplet then max ((stdRound (2 * p.lfo_period) : α) / 2) (1 / 4) / 3
              else max ((stdRound (2 * p.lfo_period) : α) / 2) (1 / 4))
            * groupFeatures.beat_length_sec * (sampleRate : α) * 2)
      ∧ |(stdRound (2 * p.lfo_period) : α) / 2 - p.lfo_period| ≤ 1 / 4
      ∧ (groupFeatures.has_beat_length_sec = false →
        lfoPeriod p sampleRate groupFeatures = max p.lfo_period (1 / 4) * (sampleRate : α) * 2)
      ∧ (loopEnv m p pState pInput numSamples sampleRate enableState groupFeatures).freqSkip
        = 2 * m.M_PI / lfoPeriod p sampleRate groupFeatures
      ∧ (groupFeatures.has_beat_length_sec = true → groupFeatures.beat_length_sec = 1 / 2 →
          sampleRate = 44100 → p.lfo_period = 1 → p.triplet = false →
          lfoPeriod p sampleRate groupFeatures = 44100
            ∧ (loopEnv m p pState pInput numSamples sampleRate enableState
                groupFeatures).freqSkip = 2 * m.M_PI / 44100) := by
  have hfs : (loopEnv m p pState pInput numSamples sampleRate enableState
      groupFeatures).freqSkip = 2 * m.M_PI / lfoPeriod p sampleRate groupFeatures := by
    simp only [loopEnv, freqSkipOf]
    ring
  have hex : groupFeatures.has_beat_length_sec = true → groupFeatures.beat_length_sec = 1 / 2 →
      sampleRate = 44100 → p.lfo_period = 1 → p.triplet = false →
      lfoPeriod p sampleRate groupFeatures = 44100 := by
    intro hb hl hr hp ht
    simp only [lfoPeriod, hb, ht, hl, hr, hp, roundToFraction_two, kChannels, if_true,
      mul_one, stdRound_two]
    norm_num
  refine ⟨?_, ?_, ?_, hfs, ?_⟩
  · intro hb
    simp [lfoPeriod, hb, roundToFraction_two, kChannels]
  · rw [← roundToFraction_two]
    exact roundToFraction_two_near _
  · intro hb
    simp [lfoPeriod, hb, kChannels]
  · intro hb hl hr hp ht
    refine ⟨hex hb hl hr hp ht, ?_⟩
    rw [hfs, hex hb hl hr hp ht]

/-- Witness for C6: the tempo-sync example of the spec. -/
theorem period_derivation_witness :
    0 < 44100
      ∧ lfoPeriod (⟨7 / 2, 1, 1 / 2, 0, 1 / 20, false, 0⟩ : Params ℝ) 44100 ⟨true, 1 / 2⟩
        = 44100 :=
  ⟨by norm_num,
    ((period_derivation ⟨Real.tanh, Real.sin, Real.pi⟩
      (⟨7 / 2, 1, 1 / 2, 0, 1 / 20, false, 0⟩ : Params ℝ) PhaserGroupState.init [] 0 44100
      EnableState.ENABLED ⟨true, 1 / 2⟩ (by norm_num)).2.2.2.2 rfl rfl rfl rfl rfl).1⟩

/-! ## C7: boundedness -/

/-- C7: boundedness.  For every feedback in `[-0.95, 0.95]`, range in `[0.05, 0.95]`,
stage knob in `[1, 6]` and depth in `[0.5, 1]` there is a bound `B` (here `1 + 3^12`) such
that in every run from the reset state, over any number of buffers with these parameter
values and input samples in `[-1, 1]`, every output sample satisfies `|output[n]| ≤ B`.  The
calls are those the routine's contract admits: an even buffer length equal to the length of
the input, a positive sample rate and, when a tempo is present, a positive beat length. -/
theorem bounded_output (feedback range stagesRaw depth : ℝ)
    (_hfeedback : -(19 / 20) ≤ feedback ∧ feedback ≤ 19 / 20)
    (hrange : 1 / 20 ≤ range ∧ range ≤ 19 / 20)
    (hstages : 1 ≤ stagesRaw ∧ stagesRaw ≤ 6)
    (hdepth : 1 / 2 ≤ depth ∧ depth ≤ 1) :
    ∃ B : ℝ, ∀ calls : List (BufferCall ℝ),
      (∀ c ∈ calls, c.params.feedback = feedback ∧ c.params.range = range
        ∧ c.params.stages = stagesRaw ∧ c.params.depth = depth ∧ 0 < c.sampleRate
        ∧ (c.groupFeatures.has_beat_length_sec = true → 0 < c.groupFeatures.beat_length_sec)
        ∧ c.pInput.length = c.numSamples ∧ c.numSamples % 2 = 0
        ∧ ∀ x ∈ c.pInput, |x| ≤ 1) →
      ∀ out ∈ (runBuffers ⟨Real.tanh, Real.sin, Real.pi⟩ PhaserGroupState.init calls).2,
        ∀ y ∈ out, |y| ≤ B := by
  refine ⟨1 + 3 ^ 12, ?_⟩
  intro calls hcalls
  apply real_runBuffers_bounded calls _ init_stateBounded
  intro c hc
  obtain ⟨_, h2, h3, h4, _, _, _, h7, h8⟩ := hcalls c hc
  refine ⟨?_, ?_, ?_, ?_, ?_, h7, h8⟩
  · rw [h2]; linarith [hrange.1]
  · rw [h2]; exact hrange.2
  · rw [h4]; linarith [hdepth.1]
  · rw [h4]; exact hdepth.2
  · rw [h3]; exact hstages.2

/-- Witness for C7: default-like parameter values and a run of two sample calls. -/
theorem bounded_output_witness :
    (-(19 / 20) ≤ (0 : ℝ) ∧ (0 : ℝ) ≤ 19 / 20) ∧ ((1 : ℝ) / 20 ≤ 1 / 20 ∧ (1 : ℝ) / 20 ≤ 19 / 20)
      ∧ ((1 : ℝ) ≤ 7 / 2 ∧ (7 : ℝ) / 2 ≤ 6) ∧ ((1 : ℝ) / 2 ≤ 1 / 2 ∧ (1 : ℝ) / 2 ≤ 1)
      ∧ ∃ B : ℝ, ∀ out ∈ (runBuffers ⟨Real.tanh, Real.sin, Real.pi⟩ PhaserGroupState.init
          [(stereoCall : BufferCall ℝ), stereoCall]).2, ∀ y ∈ out, |y| ≤ B :=
  ⟨by norm_num, by norm_num, by norm_num, by norm_num,
    (bounded_output 0 (1 / 20) (7 / 2) (1 / 2) (by norm_num) (by norm_num) (by norm_num)
      (by norm_num)).imp (fun _ h => h [stereoCall, stereoCall] (by
        intro c hc
        simp only [List.mem_cons, List.mem_singleton, List.mem_nil_iff, or_false,
          or_self] at hc
        subst hc
        refine ⟨rfl, rfl, rfl, rfl, by norm_num [stereoCall], by simp [stereoCall], rfl, rfl,
          ?_⟩
        intro x hx
        simp only [stereoCall, List.mem_cons, List.mem_singleton, List.mem_nil_iff, or_false,
          or_self] at hx
        rw [hx]
        norm_num))⟩

/-! ## C8: buffer boundaries -/

/-- C8, as amended: seamless buffer boundaries without feedback.  For every state and every
parameter snapshot with `feedback = 0` whose target depth equals `state.oldDepth`, and every
input of `2N` frames with `N` a positive multiple of 32, processing the input as one
`ENABLED` buffer gives the same output samples and the same final state as processing its
first `N` frames and then its last `N` frames as two consecutive `ENABLED` buffers. -/
theorem seamless_without_feedback (m : CMath α) (p : Params α) (pState : PhaserGroupState α)
    (pInput : List α) (N sampleRate : Nat) (groupFeatures : GroupFeatureState α)
    (hdepth : targetDepth p EnableState.ENABLED = pState.oldDepth)
    (hfeedback : p.feedback = 0) (_hpos : 0 < N) (h32 : N % 32 = 0)
    (_hlen : pInput.length = 2 * (2 * N)) :
    (processChannel m p pState pInput (2 * (2 * N)) sampleRate EnableState.ENABLED
        groupFeatures).2
        = (processChannel m p pState (pInput.take (2 * N)) (2 * N) sampleRate
            EnableState.ENABLED groupFeatures).2
          ++ (processChannel m p
              (processChannel m p pState (pInput.take (2 * N)) (2 * N) sampleRate
                EnableState.ENABLED groupFeatures).1
              (pInput.drop (2 * N)) (2 * N) sampleRate EnableState.ENABLED groupFeatures).2
      ∧ (processChannel m p pState pInput (2 * (2 * N)) sampleRate EnableState.ENABLED
          groupFeatures).1
        = (processChannel m p
              (processChannel m p pState (pInput.take (2 * N)) (2 * N) sampleRate
                EnableState.ENABLED groupFeatures).1
              (pInput.drop (2 * N)) (2 * N) sampleRate EnableState.ENABLED
              groupFeatures).1 := by
  have h4 : 2 * (2 * N) = 4 * N := by ring
  rw [h4]
  exact processChannel_split m p pState pInput N sampleRate groupFeatures hdepth hfeedback h32

/-- Witness for C8 as amended: the pulse input, split into two buffers of 32 frames, with
the feedback parameter at `0`. -/
theorem seamless_without_feedback_witness :
    targetDepth (⟨1, 1, 1 / 2, 0, 1 / 2, false, 0⟩ : Params ℝ) EnableState.ENABLED
        = (halfDepthState : PhaserGroupState ℝ).oldDepth
      ∧ (⟨1, 1, 1 / 2, 0, 1 / 2, false, 0⟩ : Params ℝ).feedback = 0
      ∧ 0 < 32 ∧ 32 % 32 = 0 ∧ (pulseInput : List ℝ).length = 2 * (2 * 32)
      ∧ (processChannel ⟨Real.tanh, Real.sin, Real.pi⟩ ⟨1, 1, 1 / 2, 0, 1 / 2, false, 0⟩
          halfDepthState (pulseInput : List ℝ) (2 * (2 * 32)) 44100 EnableState.ENABLED
          ⟨false, 0⟩).1
        = (processChannel ⟨Real.tanh, Real.sin, Real.pi⟩ ⟨1, 1, 1 / 2, 0, 1 / 2, false, 0⟩
            (processChannel ⟨Real.tanh, Real.sin, Real.pi⟩ ⟨1, 1, 1 / 2, 0, 1 / 2, false, 0⟩
              halfDepthState ((pulseInput : List ℝ).take (2 * 32)) (2 * 32) 44100
              EnableState.ENABLED ⟨false, 0⟩).1
            ((pulseInput : List ℝ).drop (2 * 32)) (2 * 32) 44100 EnableState.ENABLED
            ⟨false, 0⟩).1 :=
  ⟨by simp [targetDepth, halfDepthState], rfl, by norm_num, by norm_num,
    by simp [pulseInput],
    (seamless_without_feedback ⟨Real.tanh, Real.sin, Real.pi⟩
      ⟨1, 1, 1 / 2, 0, 1 / 2, false, 0⟩ halfDepthState (pulseInput : List ℝ) 32 44100
      ⟨false, 0⟩ (by simp [targetDepth, halfDepthState]) rfl (by norm_num) (by norm_num)
      (by simp [pulseInput])).2⟩

/-- C8 fails as stated when the feedback parameter is not `0`: with feedback `1/2`, target
depth equal to `oldDepth` and the 64-frame pulse input, the output of the single buffer
differs from the outputs of the two 32-frame buffers (at the first sample of frame 32, where
the single buffer feeds back the previous output and the second buffer starts from `0`). -/
theorem seamless_feedback_counterexample :
    targetDepth (feedbackParams : Params ℝ) EnableState.ENABLED
        = (halfDepthState : PhaserGroupState ℝ).oldDepth
      ∧ (pulseInput : List ℝ).length = 2 * (2 * 32)
      ∧ (processChannel ⟨Real.tanh, Real.sin, Real.pi⟩ feedbackParams halfDepthState
          (pulseInput : List ℝ) (2 * (2 * 32)) 44100 EnableState.ENABLED ⟨false, 0⟩).2
        ≠ (processChannel ⟨Real.tanh, Real.sin, Real.pi⟩ feedbackParams halfDepthState
            ((pulseInput : List ℝ).take (2 * 32)) (2 * 32) 44100 EnableState.ENABLED
            ⟨false, 0⟩).2
          ++ (processChannel ⟨Real.tanh, Real.sin, Real.pi⟩ feedbackParams
              (processChannel ⟨Real.tanh, Real.sin, Real.pi⟩ feedbackParams halfDepthState
                ((pulseInput : List ℝ).take (2 * 32)) (2 * 32) 44100 EnableState.ENABLED
                ⟨false, 0⟩).1
              ((pulseInput : List ℝ).drop (2 * 32)) (2 * 32) 44100 EnableState.ENABLED
              ⟨false, 0⟩).2 := by
  have hd : targetDepth (feedbackParams : Params ℝ) EnableState.ENABLED
      = (halfDepthState : PhaserGroupState ℝ).oldDepth := by
    simp [targetDepth, feedbackParams, halfDepthState]
  refine ⟨hd, by simp [pulseInput], ?_⟩
  have hfirst := processChannel_first_half ⟨Real.tanh, Real.sin, Real.pi⟩ feedbackParams
    halfDepthState (pulseInput : List ℝ) 32 44100 ⟨false, 0⟩ hd
  have hwhole := processChannel_whole ⟨Real.tanh, Real.sin, Real.pi⟩ feedbackParams
    halfDepthState (pulseInput : List ℝ) 32 44100 ⟨false, 0⟩
  have hpos := pulse_carried_left_pos
  intro heq
  rw [show 2 * (2 * 32) = 4 * 32 from rfl, hwhole.1, hfirst.1, hfirst.2] at heq
  have h2 := congrArg (fun l => l.getD 0 0) (List.append_cancel_left heq)
  simp only [processChannel] at h2
  rw [enterState_of_ne _ (by decide)] at h2
  refine boundary_heads_differ _ _ _ _ _ _ (by norm_num) (by norm_num) ?_ ?_ ?_ ?_ ?_ ?_ ?_
    hpos ?_ ?_ ?_ ?_ h2
  · simp only [loopEnv]
  · simp only [loopEnv]
  · simp only [loopEnv]
    exact feedbackParams_stages
  · simp only [loopEnv]
    exact feedbackParams_stages
  · simp [loopEnv, feedbackParams]
  · simp [loopEnv, feedbackParams]
  · rw [phaserLoop_counter]; rfl
  · simpa [kChannels] using (pulseInput_getD_64 : (pulseInput : List ℝ).getD 64 0 = 0)
  · simp only [loopEnv]
    rw [getD_drop]
    exact pulseInput_getD_64
  · rw [loopEnv_frameDepth_const _ _ _ _ _ _ _ _ hd]
    simp [halfDepthState]
  · rw [loopEnv_frameDepth_const _ _ _ _ _ _ _ _ (by rw [phaserLoop_oldDepth]; exact hd),
      phaserLoop_oldDepth]
    simp [loopStart, halfDepthState]

/-! ## C9: stage scaling -/

/-- C9: stage scaling.  For `stagesRaw` in `[1, 6]` the stage count handed to the cascade is
`floor(2 * stagesRaw)`, an integer in `[2, 12]`, and the cascade applies exactly that many
sections; `stagesRaw = 3.5` gives `7` and `stagesRaw = 3.49` gives `6`. -/
theorem stage_scaling (m : CMath α) (p : Params α) (pState : PhaserGroupState α)
    (pInput : List α) (numSamples sampleRate : Nat) (enableState : EnableState)
    (groupFeatures : GroupFeatureState α) (h1 : 1 ≤ p.stages) (h6 : p.stages ≤ 6) :
    (loopEnv m p pState pInput numSamples sampleRate enableState groupFeatures).stages
        = ⌊2 * p.stages⌋
      ∧ 2 ≤ stagesOf p ∧ stagesOf p ≤ 12
      ∧ (∀ (x c : α) (oldIn oldOut : List α),
          processSample x oldIn oldOut c (stagesOf p)
            = processSampleLoop c (⌊2 * p.stages⌋).toNat 0 x oldIn oldOut)
      ∧ (p.stages = 7 / 2 → stagesOf p = 7)
      ∧ (p.stages = 349 / 100 → stagesOf p = 6) := by
  have h0 : (0 : α) ≤ 2 * p.stages := by linarith
  have hs : stagesOf p = ⌊2 * p.stages⌋ := toInt_of_nonneg h0
  refine ⟨hs, ?_, ?_, ?_, ?_, ?_⟩
  · rw [hs, Int.le_floor]; push_cast; linarith
  · rw [hs]
    have : ⌊2 * p.stages⌋ < 13 := by rw [Int.floor_lt]; push_cast; linarith
    omega
  · intro x c oldIn oldOut
    simp [processSample, hs]
  · intro h
    rw [hs, h, Int.floor_eq_iff]
    constructor <;> norm_num
  · intro h
    rw [hs, h, Int.floor_eq_iff]
    constructor <;> norm_num

/-- Witness for C9: the default knob value `3.5`. -/
theorem stage_scaling_witness :
    (1 : ℝ) ≤ 7 / 2 ∧ (7 / 2 : ℝ) ≤ 6
      ∧ stagesOf (⟨7 / 2, 1 / 2, 1 / 2, 0, 1 / 20, false, 0⟩ : Params ℝ) = 7 :=
  ⟨by norm_num, by norm_num,
    (stage_scaling ⟨Real.tanh, Real.sin, Real.pi⟩
      (⟨7 / 2, 1 / 2, 1 / 2, 0, 1 / 20, false, 0⟩ : Params ℝ) PhaserGroupState.init [] 0 44100
      EnableState.ENABLED ⟨false, 0⟩ (by norm_num) (by norm_num)).2.2.2.2.1 rfl⟩

/-! ## C10: coefficient range -/

/-- C10: all-pass coefficient range.  For every phase and every `range` in `[0.05, 0.95]`,
with `w = range * (0.5 + 0.5*sin(phase))`, the refreshed coefficient
`(1 - tanh(w/2)) / (1 + tanh(w/2))` equals `exp(-w)` and lies in `[exp(-0.95), 1]`; the
denominator is at least `1`; and since the first iteration of every buffer refreshes both
coefficients, the state and the output of the buffer do not depend on the values the
coefficients are initialised with. -/
theorem coefficient_range (range phase : ℝ) (hlo : 1 / 20 ≤ range) (hhi : range ≤ 19 / 20) :
    filterCoef ⟨Real.tanh, Real.sin, Real.pi⟩ range phase
        = Real.exp (-(range * (1 / 2 + 1 / 2 * Real.sin phase)))
      ∧ Real.exp (-(19 / 20)) ≤ filterCoef ⟨Real.tanh, Real.sin, Real.pi⟩ range phase
      ∧ filterCoef ⟨Real.tanh, Real.sin, Real.pi⟩ range phase ≤ 1
      ∧ 1 ≤ 1 + Real.tanh (range * (1 / 2 + 1 / 2 * Real.sin phase) / 2)
      ∧ (∀ (e : LoopEnv ℝ) (n : Nat) (pState : PhaserGroupState ℝ) (cL cR : ℝ),
          (phaserLoop ⟨Real.tanh, Real.sin, Real.pi⟩ e n 0
              { loopStart pState with filterCoefLeft := cL, filterCoefRight := cR }).1.pState
            = (phaserLoop ⟨Real.tanh, Real.sin, Real.pi⟩ e n 0 (loopStart pState)).1.pState
          ∧ (phaserLoop ⟨Real.tanh, Real.sin, Real.pi⟩ e n 0
              { loopStart pState with filterCoefLeft := cL, filterCoefRight := cR }).2
            = (phaserLoop ⟨Real.tanh, Real.sin, Real.pi⟩ e n 0 (loopStart pState)).2) := by
  have hr : (0 : ℝ) ≤ range := by linarith
  have hw := real_sweep_bounds range phase hr hhi
  refine ⟨real_filterCoef_eq_exp range phase, (real_filterCoef_bounds range phase hr hhi).1,
    (real_filterCoef_bounds range phase hr hhi).2, ?_, ?_⟩
  · have := real_tanh_nonneg (x := range * (1 / 2 + 1 / 2 * Real.sin phase) / 2)
      (by linarith [hw.1])
    linarith
  · intro e n pState cL cR
    exact phaserLoop_initial_coef _ e n 0 (loopStart pState) cL cR rfl

/-- Witness for C10: `range = 1/2` at phase `0`. -/
theorem coefficient_range_witness :
    (1 / 20 : ℝ) ≤ 1 / 2 ∧ (1 / 2 : ℝ) ≤ 19 / 20
      ∧ filterCoef ⟨Real.tanh, Real.sin, Real.pi⟩ (1 / 2) 0 ≤ 1 :=
  ⟨by norm_num, by norm_num,
    (coefficient_range (1 / 2) 0 (by norm_num) (by norm_num)).2.2.1⟩

end Properties

end Phaser
